import Mathlib

/-!
Verification of the MODAQ upload/delete pipeline (modaq_upload).

This file shallowly embeds the core pure logic and state machines of the
repository — key derivation (`app/services/mcap_service.py`), the dedup
cache (`app/services/cache_service.py`), the upload job engine
(`app/services/upload_manager.py`) and the delete job engine
(`app/services/delete_manager.py`) — and proves the spec's claims about
them.  Python `datetime` values are embedded as naive component tuples,
machine integers as `Nat`/`Int` (Python ints are unbounded), SQLite tables
as lists of row structures, and fallible or concurrent I/O as explicit
oracle parameters.
-/

namespace Modaq

/-- Python `%0Nd` formatting for a nonnegative integer: the decimal digits
left-padded with zeros to a minimum width.  (`f-string` component of
`generate_s3_path`.) -/
def pyPad (width : Nat) (n : Nat) : String :=
  let s := Nat.repr n
  String.mk (List.replicate (width - s.length) '0') ++ s

/-- Embedding of a Python naive `datetime` (the Deriver returns naive
timestamps; `to_naive_utc` strips any tzinfo).  Components as in
`datetime(year, month, day, hour, minute, second)`. -/
structure PyDatetime where
  year : Nat
  month : Nat
  day : Nat
  hour : Nat
  minute : Nat
  second : Nat
deriving DecidableEq, Repr

namespace mcap_service

/-- `app/services/mcap_service.py::generate_s3_path` (lines 233-258): the
Hive-partitioned S3 key.  Minutes are rounded down to 10-minute buckets;
each component is formatted with Python `%04d` / `%02d` zero padding. -/
def generate_s3_path (start_time : PyDatetime) (filename : String) : String :=
  let minute_bucket := (start_time.minute / 10) * 10
  "year=" ++ pyPad 4 start_time.year ++
  "/month=" ++ pyPad 2 start_time.month ++
  "/day=" ++ pyPad 2 start_time.day ++
  "/hour=" ++ pyPad 2 start_time.hour ++
  "/minute=" ++ pyPad 2 minute_bucket ++
  "/" ++ filename

/-- The spec's description of the object key (spec §3 "Object key"): a
string of the form `year=YYYY/month=MM/day=DD/hour=HH/minute=MB/<filename>`
where `MB` is the 10-minute bucket `(minute // 10) * 10`, all components
zero-padded.  Written from the spec's words, to be compared with
`generate_s3_path`, which is written from the source. -/
def s3KeySpecForm (t : PyDatetime) (filename : String) : String :=
  "year=" ++ pyPad 4 t.year ++
  "/month=" ++ pyPad 2 t.month ++
  "/day=" ++ pyPad 2 t.day ++
  "/hour=" ++ pyPad 2 t.hour ++
  "/minute=" ++ pyPad 2 ((t.minute / 10) * 10) ++
  "/" ++ filename

end mcap_service

/-- Round a rational to the nearest integer, ties to even — the rounding
used by Python `format(x, ".1f")` on exactly-representable values. -/
def roundHalfEven (q : ℚ) : ℤ :=
  let f := ⌊q⌋
  if q - f < 1/2 then f
  else if q - f > 1/2 then f + 1
  else if f % 2 = 0 then f else f + 1

/-- Python `f"{x:.1f}"`: one decimal place, round half to even, with a
leading minus sign for negative values. -/
def formatOneDecimal (q : ℚ) : String :=
  let n := roundHalfEven (q * 10)
  let sign := if n < 0 then "-" else ""
  let m := n.natAbs
  sign ++ Nat.repr (m / 10) ++ "." ++ Nat.repr (m % 10)

namespace utils

/-- The unit-selection loop of `app/services/utils.py::format_file_size`
(lines 4-18): repeatedly divide by 1024 while `abs(size_float) >= 1024`,
walking the unit list `B, KB, MB, GB, TB`, falling through to `PB`.
Python float arithmetic is embedded as exact rational arithmetic. -/
def format_file_size_loop : ℚ → List String → String
  | size_float, [] => formatOneDecimal size_float ++ " PB"
  | size_float, unit :: rest =>
    if |size_float| < 1024 then formatOneDecimal size_float ++ " " ++ unit
    else format_file_size_loop (size_float / 1024) rest

/-- `app/services/utils.py::format_file_size`: human-readable size. -/
def format_file_size (size_bytes : ℤ) : String :=
  format_file_size_loop (size_bytes : ℚ) ["B", "KB", "MB", "GB", "TB"]

end utils

namespace mcap_service

/-- The unit-selection loop of
`app/services/mcap_service.py::format_file_size` (lines 291-305), which is
textually identical to the one in `app/services/utils.py`. -/
def format_file_size_loop : ℚ → List String → String
  | size_float, [] => formatOneDecimal size_float ++ " PB"
  | size_float, unit :: rest =>
    if |size_float| < 1024 then formatOneDecimal size_float ++ " " ++ unit
    else format_file_size_loop (size_float / 1024) rest

/-- `app/services/mcap_service.py::format_file_size`. -/
def format_file_size (size_bytes : ℤ) : String :=
  format_file_size_loop (size_bytes : ℚ) ["B", "KB", "MB", "GB", "TB"]

end mcap_service

namespace cache_service

/-- One row of the `s3_files` SQLite table
(`app/services/cache_service.py::_init_db`): unique on (bucket, s3_path),
with existence flag, filename, size, and the two timestamps.  Timestamps
are embedded as abstract `Nat` instants. -/
structure CacheRow where
  bucket : String
  s3_path : String
  file_exists : Bool
  filename : String
  file_size : Nat
  cached_at : Nat
  last_verified : Nat
deriving DecidableEq, Repr

/-- The `WHERE bucket = ? AND s3_path = ?` match used by the upsert's
conflict target and the path lookup. -/
def rowKeyMatches (bucket s3_path : String) (r : CacheRow) : Bool :=
  r.bucket == bucket && r.s3_path == s3_path

/-- `CacheService.update_cache` (lines 160-196): SQL upsert on
(bucket, s3_path).  On conflict it updates `file_exists`, `filename`,
`file_size` and `last_verified` (not `cached_at`); otherwise it inserts a
fresh row with both timestamps set to now. -/
def update_cache (table : List CacheRow) (bucket s3_path : String) (ex : Bool)
    (filename : String) (file_size : Nat) (now : Nat) : List CacheRow :=
  if table.any (rowKeyMatches bucket s3_path) then
    table.map fun r =>
      if rowKeyMatches bucket s3_path r then
        { r with file_exists := ex, filename := filename,
                 file_size := file_size, last_verified := now }
      else r
  else
    table ++ [⟨bucket, s3_path, ex, filename, file_size, now, now⟩]

/-- `CacheService.check_exists_cached` (lines 79-122): path lookup with
TTL.  Returns the cached flag unless the row is missing or older than the
TTL (then `none`, i.e. unknown). -/
def check_exists_cached (table : List CacheRow) (bucket s3_path : String)
    (ttl now : Nat) : Option Bool :=
  match table.find? (rowKeyMatches bucket s3_path) with
  | none => none
  | some r => if now - r.last_verified > ttl then none else some r.file_exists

/-- `CacheService.check_exists_by_filename` (lines 124-158): filename+size
lookup.  `SELECT 1 ... WHERE bucket AND filename AND file_size AND
file_exists = 1 LIMIT 1`; returns `True` on a hit and `None` otherwise —
no timestamp is consulted, so no TTL applies. -/
def check_exists_by_filename (table : List CacheRow) (bucket filename : String)
    (file_size : Nat) : Option Bool :=
  if table.any (fun r =>
      r.bucket == bucket && r.filename == filename &&
      r.file_size == file_size && r.file_exists) then
    some true
  else
    none

/-- The filename written into reconciled rows: `key.split("/")[-1]`. -/
def lastComponent (k : String) : String := (k.splitOn "/").getLastD ""

/-- `CacheService.bulk_update_cache` (lines 198-241): `executemany` of the
same upsert over a list of (key, size) entries, all with `exists = True` as
produced by the S3 listing in reconciliation. -/
def bulk_update_cache (table : List CacheRow) (bucket : String)
    (entries : List (String × Nat)) (now : Nat) : List CacheRow :=
  entries.foldl
    (fun t e => update_cache t bucket e.1 true (lastComponent e.1) e.2 now)
    table

/-- `CacheService.sync_and_reconcile_with_s3` (lines 443-570) with
`prefix = ""`: list the store (given here as `listing`), upsert every
listed key with `exists = true`, then tombstone every previously
`exists = true` row whose key is absent from the listing, refreshing its
`last_verified`.  The source guards the bulk upsert and the tombstone
`executemany` behind non-emptiness checks, which are semantic no-ops and
are dropped here; the per-bucket `cache_metadata` row is not modelled. -/
def sync_and_reconcile_with_s3 (table : List CacheRow) (bucket : String)
    (listing : List (String × Nat)) (now : Nat) : List CacheRow :=
  let s3_paths := listing.map Prod.fst
  let cached_paths :=
    (table.filter fun r => r.bucket == bucket && r.file_exists).map
      fun r => r.s3_path
  let deleted_paths := cached_paths.filter fun p => decide (p ∉ s3_paths)
  let t1 := bulk_update_cache table bucket listing now
  t1.map fun r =>
    if r.bucket == bucket && decide (r.s3_path ∈ deleted_paths) then
      { r with file_exists := false, last_verified := now }
    else r

end cache_service

namespace upload_manager

/-- `UploadStatus` enum (`app/services/upload_manager.py` lines 39-49). -/
inductive UploadStatus
  | pending
  | analyzing
  | ready
  | uploading
  | completed
  | failed
  | skipped
  | cancelled
deriving DecidableEq, Repr

/-- `FileUploadState` dataclass (lines 52-67), with the same defaults.
Wall-clock timestamps are abstract `Nat` instants; `start_time` is the
parsed data timestamp. -/
structure FileUploadState where
  filename : String
  local_path : String
  file_size : Nat
  status : UploadStatus := .pending
  s3_path : String := ""
  start_time : Option PyDatetime := none
  bytes_uploaded : Nat := 0
  error_message : String := ""
  is_duplicate : Bool := false
  is_valid : Bool := true
  upload_started_at : Option Nat := none
  upload_completed_at : Option Nat := none
deriving DecidableEq, Repr

/-- `UploadJob` dataclass (lines 109-123), restricted to the fields the
claims are about (mutex, wall-clock timestamps, auto-upload flag, temp dir
and pre-filter stats omitted). -/
structure UploadJob where
  job_id : String
  files : List FileUploadState := []
  status : UploadStatus := .pending
  cancelled : Bool := false
deriving DecidableEq, Repr

/-- `UploadJob.files_completed` (lines 143-147): files whose status is
COMPLETED or SKIPPED. -/
def files_completed (files : List FileUploadState) : Nat :=
  files.countP fun f =>
    f.status == UploadStatus.completed || f.status == UploadStatus.skipped

/-- `UploadJob.files_failed` (lines 149-152). -/
def files_failed (files : List FileUploadState) : Nat :=
  files.countP fun f => f.status == UploadStatus.failed

/-- `UploadJob.resolve_analysis_status` (lines 226-231): READY if any file
is READY, else FAILED. -/
def resolve_analysis_status (files : List FileUploadState) : UploadStatus :=
  if files.any (fun f => f.status == UploadStatus.ready) then .ready
  else .failed

/-- The end-of-upload job status derivation, identical at
`UploadManager.start_upload` lines 880-888 and
`UploadManager.analyze_and_upload_pipeline` lines 1249-1257: cancelled if
the cancel flag is set, else completed if all files are completed/skipped,
else completed if any file completed (partial success), else failed. -/
def resolve_final_status (cancelled : Bool) (files : List FileUploadState) :
    UploadStatus :=
  if cancelled then .cancelled
  else if files.all (fun f =>
      f.status == UploadStatus.completed || f.status == UploadStatus.skipped)
    then .completed
  else if files.any (fun f => f.status == UploadStatus.completed)
    then .completed
  else .failed

/-- The per-file effect of `UploadManager.cancel_job` (lines 1349-1351):
only PENDING and READY files are marked CANCELLED. -/
def cancel_file (f : FileUploadState) : FileUploadState :=
  if f.status = .pending ∨ f.status = .ready then { f with status := .cancelled }
  else f

/-- `UploadManager.get_job`: dictionary lookup, with the `jobs` dict
embedded as an association list. -/
def get_job (jobs : List (String × UploadJob)) (job_id : String) :
    Option UploadJob :=
  (jobs.find? fun p => p.1 == job_id).map Prod.snd

/-- `UploadManager.cancel_job` (lines 1335-1364): returns False when the
job id is unknown; otherwise sets the job's cancel flag, maps `cancel_file`
over its files, and returns True.  (The temp-dir cleanup and logging are
filesystem side effects, not modelled.) -/
def cancel_job (jobs : List (String × UploadJob)) (job_id : String) :
    Bool × List (String × UploadJob) :=
  match get_job jobs job_id with
  | none => (false, jobs)
  | some _ =>
    (true, jobs.map fun p =>
      if p.1 == job_id then
        (p.1, { p.2 with cancelled := true, files := p.2.files.map cancel_file })
      else p)

/-- One observable mutation of a single file's state during
`UploadManager.start_upload` (lines 734-827) together with the
`cancel_job` transition, as a step relation.  The `progress` step embeds
C4's assumption on the gateway: reported byte counts are non-decreasing
and bounded by the file size.  `complete` sets `bytes_uploaded` to the
file size (line 827); `skip_duplicate` does too (line 741). -/
inductive UploadStep (skip_duplicates : Bool) :
    FileUploadState → FileUploadState → Prop
  | skip_duplicate (f : FileUploadState) :
      f.status = .ready → skip_duplicates = true → f.is_duplicate = true →
      UploadStep skip_duplicates f
        { f with status := .skipped, bytes_uploaded := f.file_size }
  | skip_invalid (f : FileUploadState) :
      f.status = .ready → f.is_valid = false →
      UploadStep skip_duplicates f
        { f with status := .skipped,
                 error_message := "Invalid timestamp (pre-1980)" }
  | start_uploading (f : FileUploadState) (t : Nat) :
      f.status = .ready →
      UploadStep skip_duplicates f
        { f with status := .uploading, upload_started_at := some t }
  | progress (f : FileUploadState) (n : Nat) :
      f.status = .uploading → f.bytes_uploaded ≤ n → n ≤ f.file_size →
      UploadStep skip_duplicates f { f with bytes_uploaded := n }
  | complete (f : FileUploadState) (t : Nat) :
      f.status = .uploading →
      UploadStep skip_duplicates f
        { f with status := .completed, bytes_uploaded := f.file_size,
                 upload_completed_at := some t }
  | fail (f : FileUploadState) (e : String) (t : Nat) :
      f.status = .uploading →
      UploadStep skip_duplicates f
        { f with status := .failed, error_message := e,
                 upload_completed_at := some t }
  | cancel (f : FileUploadState) :
      f.status = .pending ∨ f.status = .ready →
      UploadStep skip_duplicates f { f with status := .cancelled }

/-- The initial READY file of C4's counterexample run. -/
def c4init : FileUploadState :=
  { filename := "f.mcap", local_path := "/data/f.mcap", file_size := 4,
    status := .ready, s3_path := "k/f.mcap" }

/-- `c4init` after being picked up by an upload worker. -/
def c4uploading : FileUploadState :=
  { c4init with status := .uploading, upload_started_at := some 1 }

/-- `c4uploading` after the gateway's final progress callback, which
reports `uploaded = total` while the status is still UPLOADING. -/
def c4full : FileUploadState := { c4uploading with bytes_uploaded := 4 }

/-- A file mid-analysis, for C9's counterexample. -/
def c9file : FileUploadState :=
  { filename := "g.mcap", local_path := "/data/g.mcap", file_size := 8,
    status := .analyzing }

/-- A job map with one job whose single file is ANALYZING. -/
def c9jobs : List (String × UploadJob) :=
  [("job-1", { job_id := "job-1", files := [c9file] })]

/-- The three files of the spec's partial-success scenario (one failed
HEAD/PUT, two completed). -/
def c3files : List FileUploadState :=
  [{ filename := "a.mcap", local_path := "/a.mcap", file_size := 1,
     status := .failed, error_message := "HEAD failed" },
   { filename := "b.mcap", local_path := "/b.mcap", file_size := 2,
     status := .completed, bytes_uploaded := 2 },
   { filename := "c.mcap", local_path := "/c.mcap", file_size := 3,
     status := .completed, bytes_uploaded := 3 }]

end upload_manager

namespace delete_manager

/-- `DeleteStatus` enum (`app/services/delete_manager.py` lines 20-31). -/
inductive DeleteStatus
  | pending
  | scanning
  | verifying
  | verified
  | deleting
  | deleted
  | mismatch
  | failed
  | cancelled
deriving DecidableEq, Repr

/-- `FileDeleteState` dataclass (lines 34-49) with the same defaults. -/
structure FileDeleteState where
  filename : String
  local_path : String
  file_size : Nat
  s3_path : String
  s3_bucket : String
  writable : Bool := true
  status : DeleteStatus := .pending
  local_md5 : String := ""
  s3_etag : String := ""
  s3_size : Nat := 0
  verification : String := ""
  error_message : String := ""
deriving DecidableEq, Repr

/-- `is_multipart_etag` (lines 153-164): the ETag contains a hyphen.
Python's `"-" in etag` is substring containment, which for the
single-character needle equals membership of the character `-`. -/
def is_multipart_etag (etag : String) : Bool := etag.data.contains '-'

/-- The outcome of `get_object_metadata` as observed by
`verify_against_s3`: `ok size etag` for a successful HEAD (the gateway
strips the surrounding quotes from the ETag and preserves any `-N`
suffix), `notFound msg` for a `success = False` result carrying the
gateway's error message, and `raised msg` for an exception escaping the
call. -/
inductive HeadOutcome
  | ok (size : Nat) (etag : String)
  | notFound (msg : String)
  | raised (msg : String)
deriving DecidableEq, Repr

/-- `verify_against_s3` (lines 318-380) as a function of the file state
and the HEAD outcome (the `job.cancelled` early return is handled by the
caller, `phase2_file`).  A file already FAILED (from the MD5 phase) is
skipped.  Otherwise: HEAD failure or exception → FAILED carrying the
gateway message; the returned size and ETag are recorded; size mismatch →
MISMATCH; multipart ETag → VERIFIED at level "size" without comparing the
MD5; otherwise the ETag is compared verbatim (`etag ==
file_state.local_md5`, no lowercasing) — equal → VERIFIED at level
"md5+size", unequal → MISMATCH. -/
def verify_against_s3 (fs : FileDeleteState) (head : HeadOutcome) :
    FileDeleteState :=
  if fs.status = .failed then fs
  else
    match head with
    | .raised e =>
      { fs with status := .failed,
                error_message := "S3 verification failed: " ++ e }
    | .notFound e =>
      { fs with status := .failed,
                error_message := "S3 object not found: " ++ e }
    | .ok sz etag =>
      if sz ≠ fs.file_size then
        { fs with s3_etag := etag, s3_size := sz, status := .mismatch,
                  error_message := "Size mismatch: local=" ++
                    Nat.repr fs.file_size ++ ", s3=" ++ Nat.repr sz }
      else if is_multipart_etag etag then
        { fs with s3_etag := etag, s3_size := sz, status := .verified,
                  verification := "size" }
      else if etag = fs.local_md5 then
        { fs with s3_etag := etag, s3_size := sz, status := .verified,
                  verification := "md5+size" }
      else
        { fs with s3_etag := etag, s3_size := sz, status := .mismatch,
                  error_message := "MD5 mismatch: local=" ++
                    fs.local_md5 ++ ", s3=" ++ etag }

/-- An entry of the observable event log of a delete-job run: a status
change of file `i`, or the attempt to unlink file `i`'s local path. -/
inductive DeleteEvent
  | statusChange (i : Nat) (s : DeleteStatus)
  | unlinkAttempt (i : Nat)
deriving DecidableEq, Repr

/-- Oracles for one run of `DeleteManager.start_delete_job`: per-file MD5
outcome, per-file HEAD outcome, per-file unlink outcome, the sequence of
values read from the cooperative `job.cancelled` flag (one per check, in
program order), and the S3-client construction outcome. -/
structure DeleteEnv where
  md5 : Nat → Except String String
  head : Nat → HeadOutcome
  unlink : Nat → Except String Unit
  sched : Nat → Bool
  clientOk : Bool

/-- Phase 1 (`compute_file_md5`, lines 273-292) for one file: return
untouched when the cancel flag reads true; otherwise mark VERIFYING, then
either store the digest or fail with the exception message. -/
def phase1_file (env : DeleteEnv) (i c : Nat) (fs : FileDeleteState) :
    FileDeleteState × List DeleteEvent × Nat :=
  if env.sched c then (fs, [], c + 1)
  else
    match env.md5 i with
    | .ok digest =>
      ({ fs with status := .verifying, local_md5 := digest },
       [.statusChange i .verifying], c + 1)
    | .error e =>
      ({ fs with status := .failed,
                 error_message := "MD5 computation failed: " ++ e },
       [.statusChange i .verifying, .statusChange i .failed], c + 1)

/-- Phase 2 (the `verify_against_s3` task, lines 318-383) for one file:
the cancel-flag read, the FAILED-skip, then the pure verification. -/
def phase2_file (env : DeleteEnv) (i c : Nat) (fs : FileDeleteState) :
    FileDeleteState × List DeleteEvent × Nat :=
  if env.sched c then (fs, [], c + 1)
  else if fs.status = .failed then (fs, [], c + 1)
  else
    let fs1 := verify_against_s3 fs (env.head i)
    (fs1, [.statusChange i fs1.status], c + 1)

/-- Run a per-file phase over the job's files in order (a linearization of
the 4-worker `ThreadPoolExecutor.map`), threading the cancel-check
counter and concatenating the event logs. -/
def runPhase
    (step : Nat → Nat → FileDeleteState →
      FileDeleteState × List DeleteEvent × Nat) :
    List FileDeleteState → Nat → Nat →
    List FileDeleteState × List DeleteEvent × Nat
  | [], _, c => ([], [], c)
  | f :: rest, i, c =>
    let r1 := step i c f
    let r2 := runPhase step rest (i + 1) r1.2.2
    (r1.1 :: r2.1, r1.2.1 ++ r2.2.1, r2.2.2)

/-- The statuses `_finalize_cancelled` (lines 454-480) marks CANCELLED:
PENDING, VERIFYING and VERIFIED. -/
def cancellable (s : DeleteStatus) : Bool :=
  s == DeleteStatus.pending || s == DeleteStatus.verifying ||
  s == DeleteStatus.verified

/-- `_finalize_cancelled`: cancel the cancellable files, with one status
event per changed file. -/
def finalize_cancelled (files : List FileDeleteState) :
    List FileDeleteState × List DeleteEvent :=
  (files.map fun f =>
     if cancellable f.status then { f with status := .cancelled } else f,
   files.enum.filterMap fun p =>
     if cancellable p.2.status then some (.statusChange p.1 .cancelled)
     else none)

/-- Phase 3 (lines 395-435): sequentially, for each file, stop (reporting
cancellation to the caller) when the flag reads true; skip files not
VERIFIED; otherwise mark DELETING, attempt the unlink, then mark DELETED
on success or FAILED ("Delete failed: ...") on error. -/
def phase3 (env : DeleteEnv) :
    List FileDeleteState → Nat → Nat →
    List FileDeleteState × List DeleteEvent × Nat × Bool
  | [], _, c => ([], [], c, false)
  | f :: rest, i, c =>
    if env.sched c then (f :: rest, [], c + 1, true)
    else if f.status ≠ .verified then
      let r := phase3 env rest (i + 1) (c + 1)
      (f :: r.1, r.2.1, r.2.2.1, r.2.2.2)
    else
      match env.unlink i with
      | .ok _ =>
        let r := phase3 env rest (i + 1) (c + 1)
        ({ f with status := .deleted } :: r.1,
         [.statusChange i .deleting, .unlinkAttempt i,
          .statusChange i .deleted] ++ r.2.1,
         r.2.2.1, r.2.2.2)
      | .error e =>
        let r := phase3 env rest (i + 1) (c + 1)
        ({ f with status := .failed,
                  error_message := "Delete failed: " ++ e } :: r.1,
         [.statusChange i .deleting, .unlinkAttempt i,
          .statusChange i .failed] ++ r.2.1,
         r.2.2.1, r.2.2.2)

/-- `DeleteManager.start_delete_job` (lines 234-452): the three phases
with the cancel-flag checks at each phase boundary, the S3-client
construction between phases 1 and 2, and `_finalize_cancelled` on any
cancelled exit.  Returns the final file list, the event log, and the job
status string. -/
def start_delete_job (env : DeleteEnv) (files : List FileDeleteState) :
    List FileDeleteState × List DeleteEvent × String :=
  let r1 := runPhase (phase1_file env) files 0 0
  if env.sched r1.2.2 then
    let fin := finalize_cancelled r1.1
    (fin.1, r1.2.1 ++ fin.2, "cancelled")
  else if !env.clientOk then (r1.1, r1.2.1, "failed")
  else
    let r2 := runPhase (phase2_file env) r1.1 0 (r1.2.2 + 1)
    if env.sched r2.2.2 then
      let fin := finalize_cancelled r2.1
      (fin.1, r1.2.1 ++ r2.2.1 ++ fin.2, "cancelled")
    else
      let r3 := phase3 env r2.1 0 (r2.2.2 + 1)
      if r3.2.2.2 then
        let fin := finalize_cancelled r3.1
        (fin.1, r1.2.1 ++ r2.2.1 ++ r3.2.1 ++ fin.2, "cancelled")
      else
        (r3.1, r1.2.1 ++ r2.2.1 ++ r3.2.1, "completed")

/-- Apply one logged event to a status assignment. -/
def applyEvent (σ : Nat → DeleteStatus) : DeleteEvent → Nat → DeleteStatus
  | .statusChange j s => fun k => if k = j then s else σ k
  | .unlinkAttempt _ => σ

/-- Replay a log over a status assignment. -/
def applyEvents (σ : Nat → DeleteStatus) (evs : List DeleteEvent) :
    Nat → DeleteStatus :=
  evs.foldl applyEvent σ

/-- The status of file `j` in a file list (PENDING out of range). -/
def statusOf (files : List FileDeleteState) (j : Nat) : DeleteStatus :=
  ((files.get? j).map FileDeleteState.status).getD .pending

/-- The status of file `i` after replaying a prefix of the event log over
the job's initial file statuses. -/
def statusAt (files : List FileDeleteState) (evs : List DeleteEvent)
    (i : Nat) : DeleteStatus :=
  applyEvents (statusOf files) evs i

/-- Validity of an event log with respect to the per-file delete state
machine, tracking the current status assignment: a change to DELETING may
only happen from VERIFIED, a change to DELETED only from DELETING, and an
unlink attempt only while DELETING. -/
inductive LogOk : (Nat → DeleteStatus) → List DeleteEvent → Prop
  | nil (σ : Nat → DeleteStatus) : LogOk σ []
  | chg (σ : Nat → DeleteStatus) (i : Nat) (s : DeleteStatus)
      (evs : List DeleteEvent) :
      (s = .deleting → σ i = .verified) →
      (s = .deleted → σ i = .deleting) →
      LogOk (applyEvent σ (.statusChange i s)) evs →
      LogOk σ (.statusChange i s :: evs)
  | unl (σ : Nat → DeleteStatus) (i : Nat) (evs : List DeleteEvent) :
      σ i = .deleting →
      LogOk σ evs →
      LogOk σ (.unlinkAttempt i :: evs)

/-- An event that cannot violate `LogOk` under any status assignment:
a status change to anything except DELETING or DELETED. -/
def harmlessEvent : DeleteEvent → Prop
  | .statusChange _ s => s ≠ .deleting ∧ s ≠ .deleted
  | .unlinkAttempt _ => False

/-- Python `str.lower()` (character-wise lowercasing), used to state the
spec's "compare lowercase ETag to local MD5" side of C5. -/
def lowerString (s : String) : String := String.mk (s.data.map Char.toLower)

/-- A per-file phase step whose events are harmless, change only the
file's own index, and track the file's resulting status — the shape shared
by the phase-1 and phase-2 workers. -/
def TrackStep
    (step : Nat → Nat → FileDeleteState →
      FileDeleteState × List DeleteEvent × Nat) : Prop :=
  ∀ (i c : Nat) (f : FileDeleteState) (σ : Nat → DeleteStatus),
    σ i = f.status →
    (∀ e ∈ (step i c f).2.1, harmlessEvent e) ∧
    applyEvents σ (step i c f).2.1 i = (step i c f).1.status ∧
    (∀ k, k ≠ i → applyEvents σ (step i c f).2.1 k = σ k)

/-- A one-file delete job (verified and deleted without interruption),
used to witness C6's theorem. -/
def c6files : List FileDeleteState :=
  [{ filename := "w.mcap", local_path := "/w.mcap", file_size := 1,
     s3_path := "k/w.mcap", s3_bucket := "b" }]

/-- Oracles for the C6 witness run: MD5 hashes to "abc", the HEAD returns
a matching size and the same single-part ETag, the unlink succeeds, the
cancel flag always reads false, and client construction succeeds. -/
def c6env : DeleteEnv :=
  { md5 := fun _ => .ok "abc",
    head := fun _ => .ok 1 "abc",
    unlink := fun _ => .ok (),
    sched := fun _ => false,
    clientOk := true }

/-- The file of C5's counterexample: 1 byte, hashed to lowercase
`local_md5 = "abc"`, about to be verified. -/
def c5file : FileDeleteState :=
  { filename := "a.mcap", local_path := "/a.mcap", file_size := 1,
    s3_path := "k/a.mcap", s3_bucket := "b", status := .verifying,
    local_md5 := "abc" }

/-- The file of the spec's multipart-verification scenario: size 2, with a
local MD5 that does not match the multipart ETag. -/
def c5multifile : FileDeleteState :=
  { filename := "m.mcap", local_path := "/m.mcap", file_size := 2,
    s3_path := "k/m.mcap", s3_bucket := "b", status := .verifying,
    local_md5 := "0123456789abcdef0123456789abcdef" }

end delete_manager

/-- Lexicographic comparison `a >= b` on naive datetime components —
Python `datetime.__ge__`. -/
def pyDatetimeGE (a b : PyDatetime) : Bool :=
  if a.year ≠ b.year then decide (b.year < a.year)
  else if a.month ≠ b.month then decide (b.month < a.month)
  else if a.day ≠ b.day then decide (b.day < a.day)
  else if a.hour ≠ b.hour then decide (b.hour < a.hour)
  else if a.minute ≠ b.minute then decide (b.minute < a.minute)
  else decide (b.second ≤ a.second)

namespace mcap_service

/-- Modelled from the spec: `mcap_service.to_naive_utc` is called by the
upload manager (upload_manager.py lines 490, 625 and 1062) but is absent
from the source tree; per the spec the validity comparison is against
"1980-01-01 UTC" on naive timestamps, so the function converts an aware
timestamp to a naive UTC one.  In this embedding every `PyDatetime` is
already naive UTC, so the conversion is the identity. -/
def to_naive_utc (t : PyDatetime) : PyDatetime := t

end mcap_service

namespace upload_manager

/-- `EPOCH_CUTOFF` (upload_manager.py line 24): 1980-01-01 UTC, compared
naively. -/
def EPOCH_CUTOFF : PyDatetime := ⟨1980, 1, 1, 0, 0, 0⟩

/-- Phase 1 of `UploadManager.analyze_job_async` (lines 599-629) for one
file: every file is first set ANALYZING; a worker error string makes the
file FAILED with the parser's message; a parsed timestamp is recorded
together with the validity flag (`>= EPOCH_CUTOFF`, naive) and the
derived key. -/
def analyze_phase1_file (fs : FileUploadState)
    (parseRes : Except String PyDatetime) : FileUploadState :=
  match parseRes with
  | .error e => { fs with status := .failed, error_message := e }
  | .ok t =>
    { fs with status := .analyzing, start_time := some t,
              is_valid := pyDatetimeGE (mcap_service.to_naive_utc t)
                EPOCH_CUTOFF,
              s3_path := mcap_service.generate_s3_path t fs.filename }

/-- `UploadManager._check_duplicate` (lines 425-454): no-op for an empty
key; cache lookup first (when `use_cache`), falling back to a store HEAD
(`head`, which may raise — `.error` — propagating to the caller), whose
result is written back to the cache. -/
def check_duplicate (use_cache : Bool) (cache : List cache_service.CacheRow)
    (head : Except String Bool) (bucket : String) (fs : FileUploadState)
    (ttl now : Nat) :
    Except String (FileUploadState × List cache_service.CacheRow) :=
  if fs.s3_path = "" then .ok (fs, cache)
  else
    match (if use_cache then
        cache_service.check_exists_cached cache bucket fs.s3_path ttl now
      else none) with
    | some r => .ok ({ fs with is_duplicate := r }, cache)
    | none =>
      match head with
      | .error e => .error e
      | .ok ex =>
        .ok ({ fs with is_duplicate := ex },
          if use_cache then
            cache_service.update_cache cache bucket fs.s3_path ex
              fs.filename fs.file_size now
          else cache)

/-- Oracles and parameters for one `analyze_job_async` run: per-file
parse outcome (the `_extract_start_time_worker` result), per-file store
HEAD outcome, bucket, cache flag and initial cache table, TTL and clock,
and the S3-client construction outcome. -/
structure AnalyzeEnv where
  parse : Nat → Except String PyDatetime
  head : Nat → Except String Bool
  bucket : String
  use_cache : Bool
  cache : List cache_service.CacheRow
  ttl : Nat
  now : Nat
  clientOk : Bool
  clientErr : String

/-- Phase 2 of `analyze_job_async` (lines 631-669) for one file against a
given cache state: FAILED files are skipped (`parsed_files` filter); a
successful duplicate check makes the file READY; an exception from the
check makes it FAILED with the exception message. -/
def phase2_single (env : AnalyzeEnv) (i : Nat)
    (cache : List cache_service.CacheRow) (fs : FileUploadState) :
    FileUploadState :=
  if fs.status = .failed then fs
  else
    match check_duplicate env.use_cache cache (env.head i) env.bucket fs
        env.ttl env.now with
    | .ok p => { p.1 with status := .ready }
    | .error e => { fs with status := .failed, error_message := e }

/-- Phase 2 over the whole file list (a linearization of the I/O pool's
`as_completed` order), threading the cache state. -/
def analyze_phase2 (env : AnalyzeEnv) :
    List FileUploadState → List cache_service.CacheRow → Nat →
    List FileUploadState × List cache_service.CacheRow
  | [], cache, _ => ([], cache)
  | fs :: rest, cache, i =>
    if fs.status = .failed then
      let r := analyze_phase2 env rest cache (i + 1)
      (fs :: r.1, r.2)
    else
      match check_duplicate env.use_cache cache (env.head i) env.bucket fs
          env.ttl env.now with
      | .ok p =>
        let r := analyze_phase2 env rest p.2 (i + 1)
        ({ p.1 with status := .ready } :: r.1, r.2)
      | .error e =>
        let r := analyze_phase2 env rest cache (i + 1)
        ({ fs with status := .failed, error_message := e } :: r.1, r.2)

/-- The whole per-file analysis (phase 1 then phase 2) of a single file
against a given cache state. -/
def analyze_single_file_model (env : AnalyzeEnv) (i : Nat)
    (cache : List cache_service.CacheRow) (fs : FileUploadState) :
    FileUploadState :=
  phase2_single env i cache (analyze_phase1_file fs (env.parse i))

/-- `UploadManager.analyze_job_async` (lines 551-692): on S3-client
construction failure the job and all its files become FAILED with the
client message; otherwise phase 1 (parse) runs over all files, phase 2
(duplicate check) over the non-failed ones, and the job status resolves
to READY if any file is READY else FAILED. -/
def analyze_job_async (env : AnalyzeEnv) (job : UploadJob) :
    UploadJob × List cache_service.CacheRow :=
  if !env.clientOk then
    ({ job with status := .failed,
                files := job.files.map (fun f =>
                  { f with status := .failed,
                           error_message :=
                             "Failed to create S3 client: " ++
                               env.clientErr }) },
     env.cache)
  else
    let files1 := job.files.enum.map (fun p =>
      analyze_phase1_file p.2 (env.parse p.1))
    let r2 := analyze_phase2 env files1 env.cache 0
    ({ job with files := r2.1, status := resolve_analysis_status r2.1 },
     r2.2)

/-- Oracles for the C2 witness run: every parse yields the scenario-1
timestamp, the store HEAD reports not-present, the cache starts empty. -/
def c2env : AnalyzeEnv :=
  { parse := fun _ => .ok ⟨2024, 6, 15, 14, 35, 0⟩,
    head := fun _ => .ok false,
    bucket := "b", use_cache := true, cache := [], ttl := 3600, now := 0,
    clientOk := true, clientErr := "" }

/-- A one-file job for the C2 witness. -/
def c2job : UploadJob :=
  { job_id := "job-2",
    files := [{ filename := "Bag_2024_06_15_14_35_00.mcap",
                local_path := "/data/Bag_2024_06_15_14_35_00.mcap",
                file_size := 5 }] }

end upload_manager

lemma pyPad_length {w n e : Nat} (he : 0 < e) (hn : n < 10 ^ e) (hew : e ≤ w) :
    (pyPad w n).length = w := by
  have hlen : (Nat.repr n).length ≤ w :=
    le_trans (Nat.repr_length n e he hn) hew
  simp only [pyPad, String.length_append, String.length_mk, List.length_replicate]
  omega

lemma format_file_size_loop_eq (q : ℚ) (us : List String) :
    utils.format_file_size_loop q us = mcap_service.format_file_size_loop q us := by
  induction us generalizing q with
  | nil => rfl
  | cons u rest ih =>
    rw [utils.format_file_size_loop, mcap_service.format_file_size_loop]
    by_cases h : |q| < 1024
    · simp [h]
    · simp [h, ih]

namespace cache_service

lemma rowKeyMatches_iff (bucket s3_path : String) (r : CacheRow) :
    rowKeyMatches bucket s3_path r = true ↔
      r.bucket = bucket ∧ r.s3_path = s3_path := by
  simp [rowKeyMatches]

/-- After an upsert there is a row carrying exactly the upserted fields. -/
lemma update_cache_mem (table : List CacheRow) (bucket k n : String)
    (ex : Bool) (s now : Nat) :
    ∃ r ∈ update_cache table bucket k ex n s now,
      r.bucket = bucket ∧ r.s3_path = k ∧ r.filename = n ∧
      r.file_size = s ∧ r.file_exists = ex ∧ r.last_verified = now := by
  unfold update_cache
  by_cases h : table.any (rowKeyMatches bucket k)
  · rw [if_pos h]
    rw [List.any_eq_true] at h
    obtain ⟨r0, hr0, hm⟩ := h
    refine ⟨_, List.mem_map_of_mem _ hr0, ?_⟩
    rw [if_pos hm]
    obtain ⟨hb, hp⟩ := (rowKeyMatches_iff bucket k r0).mp hm
    exact ⟨hb, hp, rfl, rfl, rfl, rfl⟩
  · rw [if_neg h]
    exact ⟨_, List.mem_append_right _ (List.mem_singleton_self _),
      rfl, rfl, rfl, rfl, rfl, rfl⟩

/-- An upsert on a different (bucket, key) cannot create an existing row at
(B, k): if every (B, k) row was `exists = false` before, it still is. -/
lemma update_cache_preserves_allFalse (table : List CacheRow)
    (B k bucket k' n : String) (ex : Bool) (s now : Nat)
    (hkey : ¬(B = bucket ∧ k = k'))
    (h : ∀ r ∈ table, r.bucket = B → r.s3_path = k → r.file_exists = false) :
    ∀ r ∈ update_cache table bucket k' ex n s now,
      r.bucket = B → r.s3_path = k → r.file_exists = false := by
  unfold update_cache
  by_cases hany : table.any (rowKeyMatches bucket k')
  · rw [if_pos hany]
    intro r hr hb hp
    obtain ⟨r0, hr0, hval⟩ := List.mem_map.mp hr
    by_cases hm : rowKeyMatches bucket k' r0
    · rw [if_pos hm] at hval
      obtain ⟨hb0, hp0⟩ := (rowKeyMatches_iff bucket k' r0).mp hm
      exfalso
      apply hkey
      constructor
      · rw [← hb, ← hval]; exact hb0
      · rw [← hp, ← hval]; exact hp0
    · rw [if_neg hm] at hval
      exact h r (hval ▸ hr0) hb hp
  · rw [if_neg hany]
    intro r hr hb hp
    rcases List.mem_append.mp hr with hr' | hr'
    · exact h r hr' hb hp
    · rw [List.mem_singleton.mp hr'] at hb hp
      exact absurd ⟨hb.symm, hp.symm⟩ hkey

/-- An upsert with `exists = true` preserves the existence of a true row
at any (B, k). -/
lemma update_cache_preserves_someTrue (table : List CacheRow)
    (B k bucket k' n : String) (s now : Nat)
    (h : ∃ r ∈ table, r.bucket = B ∧ r.s3_path = k ∧ r.file_exists = true) :
    ∃ r ∈ update_cache table bucket k' true n s now,
      r.bucket = B ∧ r.s3_path = k ∧ r.file_exists = true := by
  obtain ⟨r0, hr0, hb0, hp0, he0⟩ := h
  unfold update_cache
  by_cases hany : table.any (rowKeyMatches bucket k')
  · rw [if_pos hany]
    by_cases hm : rowKeyMatches bucket k' r0
    · refine ⟨_, List.mem_map_of_mem _ hr0, ?_⟩
      rw [if_pos hm]
      exact ⟨hb0, hp0, rfl⟩
    · refine ⟨_, List.mem_map_of_mem _ hr0, ?_⟩
      rw [if_neg hm]
      exact ⟨hb0, hp0, he0⟩
  · rw [if_neg hany]
    exact ⟨r0, List.mem_append_left _ hr0, hb0, hp0, he0⟩

/-- A row not matching the upsert's key survives unchanged. -/
lemma update_cache_mem_of_not_matching (table : List CacheRow)
    (bucket k' n : String) (ex : Bool) (s now : Nat) (r : CacheRow)
    (hr : r ∈ table) (hm : ¬ rowKeyMatches bucket k' r = true) :
    r ∈ update_cache table bucket k' ex n s now := by
  unfold update_cache
  by_cases hany : table.any (rowKeyMatches bucket k')
  · rw [if_pos hany]
    exact List.mem_map.mpr ⟨r, hr, by rw [if_neg hm]⟩
  · rw [if_neg hany]
    exact List.mem_append_left _ hr

lemma bulk_update_preserves_allFalse (bucket B k : String) (now : Nat)
    (entries : List (String × Nat)) (table : List CacheRow)
    (hk : k ∉ entries.map Prod.fst)
    (h : ∀ r ∈ table, r.bucket = B → r.s3_path = k → r.file_exists = false) :
    ∀ r ∈ bulk_update_cache table bucket entries now,
      r.bucket = B → r.s3_path = k → r.file_exists = false := by
  induction entries generalizing table with
  | nil => exact h
  | cons e rest ih =>
    simp only [List.map_cons, List.mem_cons] at hk
    push_neg at hk
    exact ih _ hk.2
      (update_cache_preserves_allFalse table B k bucket e.1 _ true e.2 now
        (fun hc => hk.1 hc.2) h)

lemma bulk_update_preserves_someTrue (bucket B k : String) (now : Nat)
    (entries : List (String × Nat)) (table : List CacheRow)
    (h : ∃ r ∈ table, r.bucket = B ∧ r.s3_path = k ∧ r.file_exists = true) :
    ∃ r ∈ bulk_update_cache table bucket entries now,
      r.bucket = B ∧ r.s3_path = k ∧ r.file_exists = true := by
  induction entries generalizing table with
  | nil => exact h
  | cons e rest ih =>
    exact ih _ (update_cache_preserves_someTrue table B k bucket e.1 _ e.2 now h)

lemma bulk_update_someTrue_of_listed (bucket k : String) (now : Nat)
    (entries : List (String × Nat)) (table : List CacheRow)
    (hk : k ∈ entries.map Prod.fst) :
    ∃ r ∈ bulk_update_cache table bucket entries now,
      r.bucket = bucket ∧ r.s3_path = k ∧ r.file_exists = true := by
  induction entries generalizing table with
  | nil => simp at hk
  | cons e rest ih =>
    simp only [List.map_cons, List.mem_cons] at hk
    rcases hk with hk | hk
    · subst hk
      obtain ⟨r, hr, hb, hp, _, _, he, _⟩ :=
        update_cache_mem table bucket e.1 (lastComponent e.1) true e.2 now
      exact bulk_update_preserves_someTrue bucket bucket e.1 now rest _
        ⟨r, hr, hb, hp, he⟩
    · exact ih _ hk

lemma bulk_update_mem_of_path_not_listed (bucket : String) (now : Nat)
    (entries : List (String × Nat)) :
    ∀ (table : List CacheRow) (r : CacheRow), r ∈ table →
      r.s3_path ∉ entries.map Prod.fst →
      r ∈ bulk_update_cache table bucket entries now := by
  induction entries with
  | nil =>
    intro table r hr _
    exact hr
  | cons e rest ih =>
    intro table r hr hk
    simp only [List.map_cons, List.mem_cons] at hk
    push_neg at hk
    apply ih _ r _ hk.2
    apply update_cache_mem_of_not_matching table bucket e.1 _ true e.2 now r hr
    intro hm
    exact hk.1 ((rowKeyMatches_iff bucket e.1 r).mp hm).2

end cache_service

namespace delete_manager

lemma applyEvents_append (σ : Nat → DeleteStatus) (e1 e2 : List DeleteEvent) :
    applyEvents σ (e1 ++ e2) = applyEvents (applyEvents σ e1) e2 :=
  List.foldl_append _ _ _ _

lemma logOk_append {e1 : List DeleteEvent} :
    ∀ {σ : Nat → DeleteStatus} {e2 : List DeleteEvent},
      LogOk σ e1 → LogOk (applyEvents σ e1) e2 → LogOk σ (e1 ++ e2) := by
  induction e1 with
  | nil =>
    intro σ e2 _ h2
    exact h2
  | cons e rest ih =>
    intro σ e2 h1 h2
    cases h1 with
    | chg _ i s _ hd1 hd2 hrest =>
      exact LogOk.chg _ i s _ hd1 hd2 (ih hrest h2)
    | unl _ i _ hcur hrest =>
      exact LogOk.unl _ i _ hcur (ih hrest h2)

lemma logOk_of_harmless :
    ∀ (evs : List DeleteEvent), (∀ e ∈ evs, harmlessEvent e) →
      ∀ σ, LogOk σ evs := by
  intro evs
  induction evs with
  | nil =>
    intro _ σ
    exact LogOk.nil σ
  | cons e rest ih =>
    intro h σ
    cases e with
    | statusChange i s =>
      have hh := h _ (List.mem_cons_self _ _)
      exact LogOk.chg σ i s rest (fun hs => absurd hs hh.1)
        (fun hs => absurd hs hh.2)
        (ih (fun e' he' => h e' (List.mem_cons_of_mem _ he')) _)
    | unlinkAttempt i =>
      exact absurd (h _ (List.mem_cons_self _ _)) not_false

lemma phase1_track (env : DeleteEnv) : TrackStep (phase1_file env) := by
  intro i c f σ hσ
  unfold phase1_file
  by_cases hs : env.sched c
  · simp only [hs, if_true]
    exact ⟨by simp, by simpa [applyEvents] using hσ, fun k _ => rfl⟩
  · simp only [hs, Bool.false_eq_true, if_false]
    cases hm : env.md5 i with
    | ok d =>
      refine ⟨?_, ?_, ?_⟩
      · intro e he
        simp only [List.mem_singleton] at he
        subst he
        exact ⟨by decide, by decide⟩
      · simp [applyEvents, applyEvent]
      · intro k hk
        simp [applyEvents, applyEvent, hk]
    | error e =>
      refine ⟨?_, ?_, ?_⟩
      · intro ev hev
        simp only [List.mem_cons, List.mem_singleton] at hev
        rcases hev with h | h | h
        · subst h; exact ⟨by decide, by decide⟩
        · subst h; exact ⟨by decide, by decide⟩
        · cases h
      · simp [applyEvents, applyEvent]
      · intro k hk
        simp [applyEvents, applyEvent, hk]

lemma verify_status_cases (fs : FileDeleteState) (h : HeadOutcome)
    (hnf : ¬ fs.status = .failed) :
    (verify_against_s3 fs h).status = .failed ∨
    (verify_against_s3 fs h).status = .mismatch ∨
    (verify_against_s3 fs h).status = .verified := by
  cases h with
  | raised e =>
    left
    simp [verify_against_s3, hnf]
  | notFound e =>
    left
    simp [verify_against_s3, hnf]
  | ok sz etag =>
    by_cases h1 : sz = fs.file_size
    · by_cases h2 : is_multipart_etag etag
      · right; right
        simp [verify_against_s3, hnf, h1, h2]
      · by_cases h3 : etag = fs.local_md5
        · right; right
          rw [h3] at h2
          simp [verify_against_s3, hnf, h1, h2, h3]
        · right; left
          simp [verify_against_s3, hnf, h1,
            Bool.eq_false_iff.mpr (fun hc => h2 hc), h3]
    · right; left
      simp [verify_against_s3, hnf, h1]

lemma phase2_track (env : DeleteEnv) : TrackStep (phase2_file env) := by
  intro i c f σ hσ
  unfold phase2_file
  by_cases hs : env.sched c
  · simp only [hs, if_true]
    exact ⟨by simp, by simpa [applyEvents] using hσ, fun k _ => rfl⟩
  · simp only [hs, Bool.false_eq_true, if_false]
    by_cases hf : f.status = .failed
    · simp only [hf, if_pos rfl]
      refine ⟨by simp, by simpa [applyEvents] using hσ, fun k _ => rfl⟩
    · simp only [if_neg hf]
      refine ⟨?_, ?_, ?_⟩
      · intro e he
        simp only [List.mem_singleton] at he
        subst he
        rcases verify_status_cases f (env.head i) hf with h | h | h <;>
          exact ⟨by rw [h]; decide, by rw [h]; decide⟩
      · simp [applyEvents, applyEvent]
      · intro k hk
        simp [applyEvents, applyEvent, hk]

lemma runPhase_track
    (step : Nat → Nat → FileDeleteState →
      FileDeleteState × List DeleteEvent × Nat)
    (hstep : TrackStep step) :
    ∀ (files : List FileDeleteState) (i c : Nat) (σ : Nat → DeleteStatus),
      (∀ j, j < files.length → σ (i + j) = statusOf files j) →
      (∀ e ∈ (runPhase step files i c).2.1, harmlessEvent e) ∧
      (runPhase step files i c).1.length = files.length ∧
      (∀ j, j < files.length →
        applyEvents σ (runPhase step files i c).2.1 (i + j) =
          statusOf (runPhase step files i c).1 j) ∧
      (∀ k, k < i ∨ i + files.length ≤ k →
        applyEvents σ (runPhase step files i c).2.1 k = σ k) := by
  intro files
  induction files with
  | nil =>
    intro i c σ _
    refine ⟨by simp [runPhase], rfl, ?_, fun k _ => rfl⟩
    intro j hj
    exact absurd hj (Nat.not_lt_zero j)
  | cons f rest ih =>
    intro i c σ hpre
    have hf : σ i = f.status := by
      have h0 := hpre 0 (Nat.succ_pos _)
      rw [Nat.add_zero] at h0
      simpa [statusOf] using h0
    obtain ⟨hharm1, htrack1, hframe1⟩ := hstep i c f σ hf
    have hpre2 : ∀ j, j < rest.length →
        applyEvents σ (step i c f).2.1 ((i + 1) + j) = statusOf rest j := by
      intro j hj
      rw [hframe1 ((i + 1) + j) (by omega)]
      have hp := hpre (j + 1) (by simp only [List.length_cons]; omega)
      rw [show i + (j + 1) = (i + 1) + j from by omega] at hp
      simpa [statusOf] using hp
    obtain ⟨hharm2, hlen2, htrack2, hframe2⟩ :=
      ih (i + 1) (step i c f).2.2 (applyEvents σ (step i c f).2.1) hpre2
    refine ⟨?_, ?_, ?_, ?_⟩
    · intro e he
      have he' : e ∈ (step i c f).2.1 ++
          (runPhase step rest (i + 1) (step i c f).2.2).2.1 := he
      rcases List.mem_append.mp he' with h | h
      · exact hharm1 e h
      · exact hharm2 e h
    · show ((step i c f).1 ::
          (runPhase step rest (i + 1) (step i c f).2.2).1).length =
        (f :: rest).length
      simp [hlen2]
    · intro j hj
      cases j with
      | zero =>
        have key : applyEvents σ ((step i c f).2.1 ++
            (runPhase step rest (i + 1) (step i c f).2.2).2.1) (i + 0) =
            statusOf ((step i c f).1 ::
              (runPhase step rest (i + 1) (step i c f).2.2).1) 0 := by
          rw [applyEvents_append, hframe2 (i + 0) (Or.inl (by omega))]
          have ht : applyEvents σ (step i c f).2.1 (i + 0) =
              (step i c f).1.status := by simpa using htrack1
          rw [ht]
          simp [statusOf]
        exact key
      | succ j' =>
        have hj' : j' < rest.length := by
          simp only [List.length_cons] at hj
          omega
        have key : applyEvents σ ((step i c f).2.1 ++
            (runPhase step rest (i + 1) (step i c f).2.2).2.1)
              (i + (j' + 1)) =
            statusOf ((step i c f).1 ::
              (runPhase step rest (i + 1) (step i c f).2.2).1) (j' + 1) := by
          rw [applyEvents_append,
            show i + (j' + 1) = (i + 1) + j' from by omega, htrack2 j' hj']
          simp [statusOf]
        exact key
    · intro k hk
      have hk1 : k < i + 1 ∨ (i + 1) + rest.length ≤ k := by
        simp only [List.length_cons] at hk
        omega
      have hki : k ≠ i := by
        simp only [List.length_cons] at hk
        omega
      have key : applyEvents σ ((step i c f).2.1 ++
          (runPhase step rest (i + 1) (step i c f).2.2).2.1) k = σ k := by
        rw [applyEvents_append, hframe2 k hk1]
        exact hframe1 k hki
      exact key

lemma phase3_logok_track (env : DeleteEnv) :
    ∀ (files : List FileDeleteState) (i c : Nat) (σ : Nat → DeleteStatus),
      (∀ j, j < files.length → σ (i + j) = statusOf files j) →
      LogOk σ (phase3 env files i c).2.1 ∧
      (∀ j, j < files.length →
        applyEvents σ (phase3 env files i c).2.1 (i + j) =
          statusOf (phase3 env files i c).1 j) ∧
      (∀ k, k < i ∨ i + files.length ≤ k →
        applyEvents σ (phase3 env files i c).2.1 k = σ k) := by
  intro files
  induction files with
  | nil =>
    intro i c σ _
    refine ⟨LogOk.nil σ, ?_, fun k _ => rfl⟩
    intro j hj
    exact absurd hj (Nat.not_lt_zero j)
  | cons f rest ih =>
    intro i c σ hpre
    have hf : σ i = f.status := by
      have h0 := hpre 0 (Nat.succ_pos _)
      rw [Nat.add_zero] at h0
      simpa [statusOf] using h0
    have hpreRest : ∀ σ' : Nat → DeleteStatus, (∀ k, k ≠ i → σ' k = σ k) →
        ∀ j, j < rest.length → σ' ((i + 1) + j) = statusOf rest j := by
      intro σ' hfr j hj
      rw [hfr ((i + 1) + j) (by omega)]
      have hp := hpre (j + 1) (by simp only [List.length_cons]; omega)
      rw [show i + (j + 1) = (i + 1) + j from by omega] at hp
      simpa [statusOf] using hp
    by_cases hs : env.sched c
    · have hred : phase3 env (f :: rest) i c = (f :: rest, [], c + 1, true) := by
        simp [phase3, hs]
      rw [hred]
      refine ⟨LogOk.nil σ, ?_, fun k _ => rfl⟩
      intro j hj
      exact hpre j hj
    · by_cases hv : f.status = .verified
      · have hσver : σ i = .verified := by rw [hf]; exact hv
        cases hu : env.unlink i with
        | ok u =>
          have hred : phase3 env (f :: rest) i c =
              ({ f with status := .deleted } ::
                 (phase3 env rest (i + 1) (c + 1)).1,
               [.statusChange i .deleting, .unlinkAttempt i,
                .statusChange i .deleted] ++
                 (phase3 env rest (i + 1) (c + 1)).2.1,
               (phase3 env rest (i + 1) (c + 1)).2.2.1,
               (phase3 env rest (i + 1) (c + 1)).2.2.2) := by
            simp [phase3, hs, hv, hu]
          rw [hred]
          have hσ3k : ∀ k, k ≠ i →
              applyEvents σ [DeleteEvent.statusChange i .deleting,
                .unlinkAttempt i, .statusChange i .deleted] k = σ k := by
            intro k hk
            simp [applyEvents, applyEvent, hk]
          have hσ3i : applyEvents σ [DeleteEvent.statusChange i .deleting,
              .unlinkAttempt i, .statusChange i .deleted] i = .deleted := by
            simp [applyEvents, applyEvent]
          obtain ⟨hlog, htrack, hframe⟩ :=
            ih (i + 1) (c + 1)
              (applyEvents σ [DeleteEvent.statusChange i .deleting,
                .unlinkAttempt i, .statusChange i .deleted])
              (hpreRest _ hσ3k)
          refine ⟨?_, ?_, ?_⟩
          · refine LogOk.chg σ i .deleting _ (fun _ => hσver)
              (fun hx => absurd hx (by decide)) ?_
            refine LogOk.unl _ i _ (by simp [applyEvent]) ?_
            refine LogOk.chg _ i .deleted _ (fun hx => absurd hx (by decide))
              (by intro _; simp [applyEvent]) ?_
            exact hlog
          · intro j hj
            rw [show ([DeleteEvent.statusChange i .deleting,
                DeleteEvent.unlinkAttempt i,
                DeleteEvent.statusChange i .deleted] ++
                  (phase3 env rest (i + 1) (c + 1)).2.1 :
                List DeleteEvent) =
              [DeleteEvent.statusChange i .deleting,
                DeleteEvent.unlinkAttempt i,
                DeleteEvent.statusChange i .deleted] ++
                  (phase3 env rest (i + 1) (c + 1)).2.1 from rfl,
              applyEvents_append]
            cases j with
            | zero =>
              rw [hframe (i + 0) (Or.inl (by omega))]
              have hz : i + 0 = i := Nat.add_zero i
              rw [hz, hσ3i]
              simp [statusOf]
            | succ j' =>
              have hj' : j' < rest.length := by
                simp only [List.length_cons] at hj
                omega
              rw [show i + (j' + 1) = (i + 1) + j' from by omega,
                htrack j' hj']
              simp [statusOf]
          · intro k hk
            have hk1 : k < i + 1 ∨ (i + 1) + rest.length ≤ k := by
              simp only [List.length_cons] at hk
              omega
            have hki : k ≠ i := by
              simp only [List.length_cons] at hk
              omega
            rw [applyEvents_append, hframe k hk1]
            exact hσ3k k hki
        | error e =>
          have hred : phase3 env (f :: rest) i c =
              ({ f with status := .failed,
                        error_message := "Delete failed: " ++ e } ::
                 (phase3 env rest (i + 1) (c + 1)).1,
               [.statusChange i .deleting, .unlinkAttempt i,
                .statusChange i .failed] ++
                 (phase3 env rest (i + 1) (c + 1)).2.1,
               (phase3 env rest (i + 1) (c + 1)).2.2.1,
               (phase3 env rest (i + 1) (c + 1)).2.2.2) := by
            simp [phase3, hs, hv, hu]
          rw [hred]
          have hσ3k : ∀ k, k ≠ i →
              applyEvents σ [DeleteEvent.statusChange i .deleting,
                .unlinkAttempt i, .statusChange i .failed] k = σ k := by
            intro k hk
            simp [applyEvents, applyEvent, hk]
          have hσ3i : applyEvents σ [DeleteEvent.statusChange i .deleting,
              .unlinkAttempt i, .statusChange i .failed] i = .failed := by
            simp [applyEvents, applyEvent]
          obtain ⟨hlog, htrack, hframe⟩ :=
            ih (i + 1) (c + 1)
              (applyEvents σ [DeleteEvent.statusChange i .deleting,
                .unlinkAttempt i, .statusChange i .failed])
              (hpreRest _ hσ3k)
          refine ⟨?_, ?_, ?_⟩
          · refine LogOk.chg σ i .deleting _ (fun _ => hσver)
              (fun hx => absurd hx (by decide)) ?_
            refine LogOk.unl _ i _ (by simp [applyEvent]) ?_
            refine LogOk.chg _ i .failed _ (fun hx => absurd hx (by decide))
              (fun hx => absurd hx (by decide)) ?_
            exact hlog
          · intro j hj
            rw [applyEvents_append]
            cases j with
            | zero =>
              rw [hframe (i + 0) (Or.inl (by omega))]
              have hz : i + 0 = i := Nat.add_zero i
              rw [hz, hσ3i]
              simp [statusOf]
            | succ j' =>
              have hj' : j' < rest.length := by
                simp only [List.length_cons] at hj
                omega
              rw [show i + (j' + 1) = (i + 1) + j' from by omega,
                htrack j' hj']
              simp [statusOf]
          · intro k hk
            have hk1 : k < i + 1 ∨ (i + 1) + rest.length ≤ k := by
              simp only [List.length_cons] at hk
              omega
            have hki : k ≠ i := by
              simp only [List.length_cons] at hk
              omega
            rw [applyEvents_append, hframe k hk1]
            exact hσ3k k hki
      · have hred : phase3 env (f :: rest) i c =
            (f :: (phase3 env rest (i + 1) (c + 1)).1,
             (phase3 env rest (i + 1) (c + 1)).2.1,
             (phase3 env rest (i + 1) (c + 1)).2.2.1,
             (phase3 env rest (i + 1) (c + 1)).2.2.2) := by
          simp [phase3, hs, hv]
        rw [hred]
        obtain ⟨hlog, htrack, hframe⟩ :=
          ih (i + 1) (c + 1) σ (hpreRest σ (fun _ _ => rfl))
        refine ⟨hlog, ?_, ?_⟩
        · intro j hj
          cases j with
          | zero =>
            rw [hframe (i + 0) (Or.inl (by omega))]
            have hz : i + 0 = i := Nat.add_zero i
            rw [hz, hf]
            simp [statusOf]
          | succ j' =>
            have hj' : j' < rest.length := by
              simp only [List.length_cons] at hj
              omega
            rw [show i + (j' + 1) = (i + 1) + j' from by omega,
              htrack j' hj']
            simp [statusOf]
        · intro k hk
          refine hframe k ?_
          simp only [List.length_cons] at hk
          omega

lemma finalize_harmless (files : List FileDeleteState) :
    ∀ e ∈ (finalize_cancelled files).2, harmlessEvent e := by
  intro e he
  simp only [finalize_cancelled] at he
  obtain ⟨p, _, hval⟩ := List.mem_filterMap.mp he
  by_cases hc : cancellable p.2.status
  · rw [if_pos hc] at hval
    rw [← Option.some_inj.mp hval]
    exact ⟨by decide, by decide⟩
  · rw [if_neg hc] at hval
    cases hval

lemma start_delete_job_logok (env : DeleteEnv)
    (files : List FileDeleteState) :
    LogOk (statusOf files) (start_delete_job env files).2.1 := by
  have hpre1 : ∀ j, j < files.length →
      statusOf files (0 + j) = statusOf files j := by
    intro j _
    rw [Nat.zero_add]
  obtain ⟨h1harm, h1len, h1track, _⟩ :=
    runPhase_track _ (phase1_track env) files 0 0 (statusOf files) hpre1
  simp only [start_delete_job]
  set r1 := runPhase (phase1_file env) files 0 0 with hr1
  set σ0 := statusOf files with hσ0
  have hlog1 : LogOk σ0 r1.2.1 := logOk_of_harmless _ h1harm _
  by_cases hs1 : env.sched r1.2.2 = true
  · rw [if_pos hs1]
    exact logOk_append hlog1 (logOk_of_harmless _ (finalize_harmless _) _)
  · rw [if_neg hs1]
    by_cases hck : (!env.clientOk) = true
    · rw [if_pos hck]
      exact hlog1
    · rw [if_neg hck]
      have hpre2 : ∀ j, j < r1.1.length →
          applyEvents σ0 r1.2.1 (0 + j) = statusOf r1.1 j := by
        intro j hj
        exact h1track j (by omega)
      obtain ⟨h2harm, h2len, h2track, _⟩ :=
        runPhase_track _ (phase2_track env) r1.1 0 (r1.2.2 + 1)
          (applyEvents σ0 r1.2.1) hpre2
      set r2 := runPhase (phase2_file env) r1.1 0 (r1.2.2 + 1) with hr2
      have hlog2 : LogOk (applyEvents σ0 r1.2.1) r2.2.1 :=
        logOk_of_harmless _ h2harm _
      have hlog12 : LogOk σ0 (r1.2.1 ++ r2.2.1) := logOk_append hlog1 hlog2
      by_cases hs2 : env.sched r2.2.2 = true
      · rw [if_pos hs2]
        exact logOk_append hlog12
          (logOk_of_harmless _ (finalize_harmless _) _)
      · rw [if_neg hs2]
        have hpre3 : ∀ j, j < r2.1.length →
            applyEvents (applyEvents σ0 r1.2.1) r2.2.1 (0 + j) =
              statusOf r2.1 j := by
          intro j hj
          exact h2track j (by omega)
        obtain ⟨h3log, h3track, _⟩ :=
          phase3_logok_track env r2.1 0 (r2.2.2 + 1)
            (applyEvents (applyEvents σ0 r1.2.1) r2.2.1) hpre3
        set r3 := phase3 env r2.1 0 (r2.2.2 + 1) with hr3
        have h3logB : LogOk (applyEvents σ0 (r1.2.1 ++ r2.2.1)) r3.2.1 := by
          rw [applyEvents_append]
          exact h3log
        have hlog123 : LogOk σ0 (r1.2.1 ++ r2.2.1 ++ r3.2.1) :=
          logOk_append hlog12 h3logB
        by_cases hs3 : r3.2.2.2 = true
        · rw [if_pos hs3]
          exact logOk_append hlog123
            (logOk_of_harmless _ (finalize_harmless _) _)
        · rw [if_neg hs3]
          exact hlog123


lemma logOk_take_unlink :
    ∀ (evs : List DeleteEvent) (σ : Nat → DeleteStatus) (k i : Nat),
      LogOk σ evs → evs.get? k = some (.unlinkAttempt i) →
      applyEvents σ (evs.take k) i = .deleting := by
  intro evs
  induction evs with
  | nil =>
    intro σ k i _ hk
    simp at hk
  | cons e rest ih =>
    intro σ k i hlog hk
    cases k with
    | zero =>
      simp only [List.get?_cons_zero, Option.some_inj] at hk
      subst hk
      cases hlog with
      | unl _ _ _ hcur _ => exact hcur
    | succ k' =>
      have hk' : rest.get? k' = some (.unlinkAttempt i) := by simpa using hk
      cases hlog with
      | chg _ i' s _ _ _ hrest => exact ih _ k' i hrest hk'
      | unl _ i'' _ _ hrest => exact ih _ k' i hrest hk'

lemma logOk_deleting_prior_verified :
    ∀ (evs : List DeleteEvent) (σ : Nat → DeleteStatus) (k i : Nat),
      LogOk σ evs → applyEvents σ (evs.take k) i = .deleting →
      σ i ≠ .deleting →
      ∃ j, j < k ∧ applyEvents σ (evs.take j) i = .verified := by
  intro evs
  induction evs with
  | nil =>
    intro σ k i _ hd hne
    rw [List.take_nil] at hd
    exact absurd hd hne
  | cons e rest ih =>
    intro σ k i hlog hd hne
    cases k with
    | zero => exact absurd hd hne
    | succ k' =>
      cases hlog with
      | chg _ i' s _ hc1 hc2 hrest =>
        by_cases hii : i = i'
        · by_cases hss : s = .deleting
          · refine ⟨0, Nat.succ_pos _, ?_⟩
            rw [hii]
            exact hc1 hss
          · have hσi : applyEvent σ (.statusChange i' s) i = s := by
              simp [applyEvent, hii]
            obtain ⟨j, hj, hver⟩ := ih _ k' i hrest hd (by rw [hσi]; exact hss)
            exact ⟨j + 1, Nat.succ_lt_succ hj, hver⟩
        · have hσi : applyEvent σ (.statusChange i' s) i = σ i := by
            simp [applyEvent, hii]
          obtain ⟨j, hj, hver⟩ := ih _ k' i hrest hd (by rw [hσi]; exact hne)
          exact ⟨j + 1, Nat.succ_lt_succ hj, hver⟩
      | unl _ i'' _ _ hrest =>
        obtain ⟨j, hj, hver⟩ := ih _ k' i hrest hd hne
        exact ⟨j + 1, Nat.succ_lt_succ hj, hver⟩

lemma logOk_deleted_prior_verified :
    ∀ (evs : List DeleteEvent) (σ : Nat → DeleteStatus) (k i : Nat),
      LogOk σ evs → applyEvents σ (evs.take k) i = .deleted →
      σ i ≠ .deleted → σ i ≠ .deleting →
      ∃ j, j < k ∧ applyEvents σ (evs.take j) i = .verified := by
  intro evs
  induction evs with
  | nil =>
    intro σ k i _ hd hne1 _
    rw [List.take_nil] at hd
    exact absurd hd hne1
  | cons e rest ih =>
    intro σ k i hlog hd hne1 hne2
    cases k with
    | zero => exact absurd hd hne1
    | succ k' =>
      cases hlog with
      | chg _ i' s _ hc1 hc2 hrest =>
        by_cases hii : i = i'
        · by_cases hss : s = .deleting
          · refine ⟨0, Nat.succ_pos _, ?_⟩
            rw [hii]
            exact hc1 hss
          · by_cases hss2 : s = .deleted
            · exfalso
              apply hne2
              rw [hii]
              exact hc2 hss2
            · have hσi : applyEvent σ (.statusChange i' s) i = s := by
                simp [applyEvent, hii]
              obtain ⟨j, hj, hver⟩ := ih _ k' i hrest hd
                (by rw [hσi]; exact hss2) (by rw [hσi]; exact hss)
              exact ⟨j + 1, Nat.succ_lt_succ hj, hver⟩
        · have hσi : applyEvent σ (.statusChange i' s) i = σ i := by
            simp [applyEvent, hii]
          obtain ⟨j, hj, hver⟩ := ih _ k' i hrest hd
            (by rw [hσi]; exact hne1) (by rw [hσi]; exact hne2)
          exact ⟨j + 1, Nat.succ_lt_succ hj, hver⟩
      | unl _ i'' _ _ hrest =>
        obtain ⟨j, hj, hver⟩ := ih _ k' i hrest hd hne1 hne2
        exact ⟨j + 1, Nat.succ_lt_succ hj, hver⟩

end delete_manager

namespace upload_manager

lemma check_duplicate_preserves (use_cache : Bool)
    (cache : List cache_service.CacheRow) (head : Except String Bool)
    (bucket : String) (fs : FileUploadState) (ttl now : Nat) :
    ∀ p, check_duplicate use_cache cache head bucket fs ttl now = .ok p →
      p.1.start_time = fs.start_time ∧ p.1.s3_path = fs.s3_path ∧
      p.1.is_valid = fs.is_valid ∧ p.1.status = fs.status ∧
      p.1.error_message = fs.error_message := by
  intro p hp
  unfold check_duplicate at hp
  by_cases he : fs.s3_path = ""
  · rw [if_pos he] at hp
    injection hp with h
    rw [← h]
    exact ⟨rfl, rfl, rfl, rfl, rfl⟩
  · rw [if_neg he] at hp
    cases hc : (if use_cache then
        cache_service.check_exists_cached cache bucket fs.s3_path ttl now
      else none) with
    | some r =>
      rw [hc] at hp
      injection hp with h
      rw [← h]
      exact ⟨rfl, rfl, rfl, rfl, rfl⟩
    | none =>
      rw [hc] at hp
      cases head with
      | error e => cases hp
      | ok ex =>
        injection hp with h
        rw [← h]
        exact ⟨rfl, rfl, rfl, rfl, rfl⟩

lemma analyze_phase2_get (env : AnalyzeEnv) :
    ∀ (files : List FileUploadState) (cache : List cache_service.CacheRow)
      (i0 : Nat),
      (analyze_phase2 env files cache i0).1.length = files.length ∧
      ∃ caches : Nat → List cache_service.CacheRow, caches i0 = cache ∧
        ∀ j f, files.get? j = some f →
          (analyze_phase2 env files cache i0).1.get? j =
            some (phase2_single env (i0 + j) (caches (i0 + j)) f) := by
  intro files
  induction files with
  | nil =>
    intro cache i0
    refine ⟨rfl, fun _ => cache, rfl, ?_⟩
    intro j f hf
    simp at hf
  | cons fs rest ih =>
    intro cache i0
    by_cases hfs : fs.status = .failed
    · have hred : analyze_phase2 env (fs :: rest) cache i0 =
          (fs :: (analyze_phase2 env rest cache (i0 + 1)).1,
           (analyze_phase2 env rest cache (i0 + 1)).2) := by
        simp [analyze_phase2, hfs]
      obtain ⟨hlen, caches', hc', hget'⟩ := ih cache (i0 + 1)
      rw [hred]
      refine ⟨by simp [hlen],
        fun k => if k ≤ i0 then cache else caches' k, by simp, ?_⟩
      intro j f hf
      cases j with
      | zero =>
        simp only [List.get?_cons_zero, Option.some_inj] at hf
        subst hf
        simp only [List.get?_cons_zero, Option.some_inj, Nat.add_zero,
          le_refl, if_true]
        simp [phase2_single, hfs]
      | succ j' =>
        simp only [List.get?_cons_succ] at hf ⊢
        rw [hget' j' f hf]
        have hidx : i0 + (j' + 1) = (i0 + 1) + j' := by omega
        rw [hidx, if_neg (by omega)]
    · cases hcd : check_duplicate env.use_cache cache (env.head i0)
          env.bucket fs env.ttl env.now with
      | ok p =>
        have hred : analyze_phase2 env (fs :: rest) cache i0 =
            ({ p.1 with status := .ready } ::
               (analyze_phase2 env rest p.2 (i0 + 1)).1,
             (analyze_phase2 env rest p.2 (i0 + 1)).2) := by
          simp [analyze_phase2, hfs, hcd]
        obtain ⟨hlen, caches', hc', hget'⟩ := ih p.2 (i0 + 1)
        rw [hred]
        refine ⟨by simp [hlen],
          fun k => if k ≤ i0 then cache else caches' k, by simp, ?_⟩
        intro j f hf
        cases j with
        | zero =>
          simp only [List.get?_cons_zero, Option.some_inj] at hf
          subst hf
          simp only [List.get?_cons_zero, Option.some_inj, Nat.add_zero,
            le_refl, if_true]
          simp [phase2_single, hfs, hcd]
        | succ j' =>
          simp only [List.get?_cons_succ] at hf ⊢
          rw [hget' j' f hf]
          have hidx : i0 + (j' + 1) = (i0 + 1) + j' := by omega
          rw [hidx, if_neg (by omega)]
      | error e =>
        have hred : analyze_phase2 env (fs :: rest) cache i0 =
            ({ fs with status := .failed, error_message := e } ::
               (analyze_phase2 env rest cache (i0 + 1)).1,
             (analyze_phase2 env rest cache (i0 + 1)).2) := by
          simp [analyze_phase2, hfs, hcd]
        obtain ⟨hlen, caches', hc', hget'⟩ := ih cache (i0 + 1)
        rw [hred]
        refine ⟨by simp [hlen],
          fun k => if k ≤ i0 then cache else caches' k, by simp, ?_⟩
        intro j f hf
        cases j with
        | zero =>
          simp only [List.get?_cons_zero, Option.some_inj] at hf
          subst hf
          simp only [List.get?_cons_zero, Option.some_inj, Nat.add_zero,
            le_refl, if_true]
          simp [phase2_single, hfs, hcd]
        | succ j' =>
          simp only [List.get?_cons_succ] at hf ⊢
          rw [hget' j' f hf]
          have hidx : i0 + (j' + 1) = (i0 + 1) + j' := by omega
          rw [hidx, if_neg (by omega)]

lemma analyze_single_error (env : AnalyzeEnv) (j : Nat)
    (c : List cache_service.CacheRow) (f : FileUploadState) (e : String)
    (hparse : env.parse j = .error e) :
    (analyze_single_file_model env j c f).status = .failed ∧
    (analyze_single_file_model env j c f).error_message = e := by
  unfold analyze_single_file_model
  rw [hparse]
  constructor <;> simp [analyze_phase1_file, phase2_single]

lemma analyze_single_ok (env : AnalyzeEnv) (j : Nat)
    (c : List cache_service.CacheRow) (f : FileUploadState) (t : PyDatetime)
    (hparse : env.parse j = .ok t) :
    (analyze_single_file_model env j c f).start_time = some t ∧
    (analyze_single_file_model env j c f).s3_path =
      mcap_service.generate_s3_path t f.filename ∧
    (analyze_single_file_model env j c f).is_valid =
      pyDatetimeGE (mcap_service.to_naive_utc t) EPOCH_CUTOFF ∧
    ((analyze_single_file_model env j c f).status = .ready ∨
     (analyze_single_file_model env j c f).status = .failed) := by
  unfold analyze_single_file_model
  rw [hparse]
  have hst : ¬ (analyze_phase1_file f (.ok t)).status = .failed := by
    intro h
    exact absurd (show UploadStatus.analyzing = .failed from h) (by decide)
  unfold phase2_single
  rw [if_neg hst]
  cases hcd : check_duplicate env.use_cache c (env.head j) env.bucket
      (analyze_phase1_file f (.ok t)) env.ttl env.now with
  | ok p =>
    obtain ⟨h1, h2, h3, _, _⟩ :=
      check_duplicate_preserves env.use_cache c (env.head j) env.bucket
        (analyze_phase1_file f (.ok t)) env.ttl env.now p hcd
    exact ⟨h1, h2, h3, Or.inl rfl⟩
  | error e =>
    exact ⟨rfl, rfl, rfl, Or.inr rfl⟩

end upload_manager

/-- C1.  The object key is a pure, deterministic function of
(timestamp, filename) — in this embedding `generate_s3_path` is a plain
function, so determinism is by construction — and it has exactly the form
`year=YYYY/month=MM/day=DD/hour=HH/minute=MB/<filename>` with `MB` equal to
`(minute / 10) * 10` and all components zero-padded (widths 4/2/2/2/2 under
the Python `datetime` component bounds); on timestamp 2024-06-15T14:35:00Z
with filename `Bag_2024_06_15_14_35_00.mcap` the key is
`year=2024/month=06/day=15/hour=14/minute=30/Bag_2024_06_15_14_35_00.mcap`. -/
theorem generate_s3_path_key_determinism (t : PyDatetime) (n : String)
    (hy : t.year ≤ 9999) (hm : t.month ≤ 12) (hd : t.day ≤ 31)
    (hh : t.hour ≤ 23) (hmin : t.minute ≤ 59) :
    mcap_service.generate_s3_path t n = mcap_service.s3KeySpecForm t n ∧
    (pyPad 4 t.year).length = 4 ∧ (pyPad 2 t.month).length = 2 ∧
    (pyPad 2 t.day).length = 2 ∧ (pyPad 2 t.hour).length = 2 ∧
    (pyPad 2 ((t.minute / 10) * 10)).length = 2 ∧
    mcap_service.generate_s3_path ⟨2024, 6, 15, 14, 35, 0⟩
        "Bag_2024_06_15_14_35_00.mcap" =
      "year=2024/month=06/day=15/hour=14/minute=30/Bag_2024_06_15_14_35_00.mcap" := by
  refine ⟨rfl, ?_, ?_, ?_, ?_, ?_, rfl⟩
  · exact pyPad_length (e := 4) (by norm_num) (by omega) (by norm_num)
  · exact pyPad_length (e := 2) (by norm_num) (by omega) (by norm_num)
  · exact pyPad_length (e := 2) (by norm_num) (by omega) (by norm_num)
  · exact pyPad_length (e := 2) (by norm_num) (by omega) (by norm_num)
  · exact pyPad_length (e := 2) (by norm_num) (by omega) (by norm_num)

/-- Witness for C1 at the spec's concrete scenario-1 input. -/
theorem generate_s3_path_key_determinism_witness :
    mcap_service.generate_s3_path ⟨2024, 6, 15, 14, 35, 0⟩
        "Bag_2024_06_15_14_35_00.mcap" =
      "year=2024/month=06/day=15/hour=14/minute=30/Bag_2024_06_15_14_35_00.mcap" :=
  (generate_s3_path_key_determinism ⟨2024, 6, 15, 14, 35, 0⟩
    "Bag_2024_06_15_14_35_00.mcap" (by norm_num) (by norm_num) (by norm_num)
    (by norm_num) (by norm_num)).2.2.2.2.2.2

/-- C7.  Round-trip with no TTL effect: after
`update_cache(b, k, true, n, s)`, a later `check_exists_by_filename(b, n, s)`
returns true regardless of elapsed time (the lookup consults no timestamp —
here the query time does not even appear as an argument), and
`check_exists_by_filename` never returns false: its only results are
`some true` (uploaded) and `none` (unknown). -/
theorem cache_filename_roundtrip_no_ttl :
    (∀ (table : List cache_service.CacheRow) (b k n : String) (s now : Nat),
      cache_service.check_exists_by_filename
        (cache_service.update_cache table b k true n s now) b n s = some true) ∧
    (∀ (table : List cache_service.CacheRow) (b n : String) (s : Nat),
      cache_service.check_exists_by_filename table b n s ≠ some false) := by
  constructor
  · intro table b k n s now
    unfold cache_service.check_exists_by_filename
    rw [if_pos]
    rw [List.any_eq_true]
    obtain ⟨r, hr, hb, _, hn, hs, he, _⟩ :=
      cache_service.update_cache_mem table b k n true s now
    exact ⟨r, hr, by simp [hb, hn, hs, he]⟩
  · intro table b n s
    unfold cache_service.check_exists_by_filename
    split <;> simp

/-- C8.  After `sync_and_reconcile_with_s3(B, prefix="")`, the rows for
bucket B with `exists = true` are exactly the listed keys: a true row at
key k exists iff k was listed; moreover every previously-true row whose key
is absent from the listing is tombstoned to `exists = false` with
`last_verified` refreshed to the sync time. -/
theorem sync_reconcile_exists_iff_listed (table : List cache_service.CacheRow)
    (B : String) (listing : List (String × Nat)) (now : Nat) :
    (∀ k : String,
      (∃ r ∈ cache_service.sync_and_reconcile_with_s3 table B listing now,
        r.bucket = B ∧ r.s3_path = k ∧ r.file_exists = true)
      ↔ k ∈ listing.map Prod.fst) ∧
    (∀ r ∈ table, r.bucket = B → r.file_exists = true →
      r.s3_path ∉ listing.map Prod.fst →
      ∃ r' ∈ cache_service.sync_and_reconcile_with_s3 table B listing now,
        r'.bucket = B ∧ r'.s3_path = r.s3_path ∧ r'.file_exists = false ∧
        r'.last_verified = now) := by
  unfold cache_service.sync_and_reconcile_with_s3
  set s3_paths := listing.map Prod.fst with hs3
  set cached_paths :=
    (table.filter fun r => r.bucket == B && r.file_exists).map
      fun r => r.s3_path with hcached
  set deleted_paths := cached_paths.filter fun p => decide (p ∉ s3_paths)
    with hdel
  set t1 := cache_service.bulk_update_cache table B listing now with ht1
  have hdel_not_listed : ∀ p ∈ deleted_paths, p ∉ s3_paths := by
    intro p hp
    have := (List.mem_filter.mp hp).2
    simpa using this
  have hdel_of_true : ∀ r ∈ table, r.bucket = B → r.file_exists = true →
      r.s3_path ∉ s3_paths → r.s3_path ∈ deleted_paths := by
    intro r hr hb he hnl
    apply List.mem_filter.mpr
    refine ⟨List.mem_map_of_mem _ (List.mem_filter.mpr ⟨hr, ?_⟩), by simpa using hnl⟩
    simp [hb, he]
  constructor
  · intro k
    constructor
    · rintro ⟨r', hr', hb', hp', he'⟩
      obtain ⟨r1, hr1, hval⟩ := List.mem_map.mp hr'
      by_cases hcond : (r1.bucket == B && decide (r1.s3_path ∈ deleted_paths)) = true
      · rw [if_pos hcond] at hval
        rw [← hval] at he'
        simp at he'
      · rw [if_neg hcond] at hval
        subst hval
        by_contra hnl
        by_cases hex : ∃ r0 ∈ table, r0.bucket = B ∧ r0.s3_path = k ∧
            r0.file_exists = true
        · obtain ⟨r0, hr0, hb0, hp0, he0⟩ := hex
          have hkdel : k ∈ deleted_paths := by
            have := hdel_of_true r0 hr0 hb0 he0 (by rw [hp0]; exact hnl)
            rwa [hp0] at this
          apply hcond
          simp only [Bool.and_eq_true, beq_iff_eq, decide_eq_true_eq]
          exact ⟨hb', hp' ▸ hkdel⟩
        · push_neg at hex
          have hall : ∀ r0 ∈ table, r0.bucket = B → r0.s3_path = k →
              r0.file_exists = false := by
            intro r0 hr0 hb0 hp0
            cases hfe : r0.file_exists with
            | false => rfl
            | true => exact absurd hfe (hex r0 hr0 hb0 hp0)
          have hfalse := cache_service.bulk_update_preserves_allFalse B B k now
            listing table hnl hall r1 hr1 hb' hp'
          rw [he'] at hfalse
          simp at hfalse
    · intro hk
      obtain ⟨r1, hr1, hb1, hp1, he1⟩ :=
        cache_service.bulk_update_someTrue_of_listed B k now listing table hk
      have hnd : k ∉ deleted_paths := by
        intro hkd
        exact hdel_not_listed k hkd hk
      refine ⟨r1, List.mem_map.mpr ⟨r1, hr1, ?_⟩, hb1, hp1, he1⟩
      rw [if_neg]
      simp only [Bool.and_eq_true, beq_iff_eq, decide_eq_true_eq, not_and]
      intro _ hmem
      exact absurd (hp1 ▸ hmem) hnd
  · intro r hr hb he hnl
    have hrdel : r.s3_path ∈ deleted_paths := hdel_of_true r hr hb he hnl
    have hrt1 : r ∈ t1 :=
      cache_service.bulk_update_mem_of_path_not_listed B now listing table r hr hnl
    refine ⟨_, List.mem_map.mpr ⟨r, hrt1, rfl⟩, ?_⟩
    rw [if_pos]
    · exact ⟨hb, rfl, rfl, rfl⟩
    · simp only [Bool.and_eq_true, beq_iff_eq, decide_eq_true_eq]
      exact ⟨hb, hrdel⟩

/-- Witness for C8 at a concrete table and listing: a stale true row is
tombstoned and the listed key becomes the only true row. -/
theorem sync_reconcile_exists_iff_listed_witness :
    let table : List cache_service.CacheRow :=
      [⟨"b", "old/key.mcap", true, "key.mcap", 7, 0, 0⟩]
    let result := cache_service.sync_and_reconcile_with_s3 table "b"
      [("new/key2.mcap", 5)] 9
    ((∃ r ∈ result, r.bucket = "b" ∧ r.s3_path = "new/key2.mcap" ∧
        r.file_exists = true) ↔
      "new/key2.mcap" ∈ ([("new/key2.mcap", 5)].map Prod.fst : List String)) ∧
    (∃ r' ∈ result, r'.bucket = "b" ∧ r'.s3_path = "old/key.mcap" ∧
      r'.file_exists = false ∧ r'.last_verified = 9) := by
  refine ⟨(sync_reconcile_exists_iff_listed _ "b" [("new/key2.mcap", 5)] 9).1
      "new/key2.mcap",
    (sync_reconcile_exists_iff_listed _ "b" [("new/key2.mcap", 5)] 9).2
      ⟨"b", "old/key.mcap", true, "key.mcap", 7, 0, 0⟩ (by simp) rfl rfl
      (by simp)⟩

/-- C10.  The two independently defined file-size formatters,
`app.services.utils.format_file_size` and
`app.services.mcap_service.format_file_size`, are extensionally equal: they
are textually identical unit-walking loops (value < 1024 in the chosen unit
rendered with one decimal place, units B/KB/MB/GB/TB, falling through to
PB). -/
theorem format_file_size_extensional_equality (n : ℤ) :
    utils.format_file_size n = mcap_service.format_file_size n := by
  unfold utils.format_file_size mcap_service.format_file_size
  exact format_file_size_loop_eq (n : ℚ) ["B", "KB", "MB", "GB", "TB"]

namespace upload_manager

/-- C3.  At the end of the upload phase the job status is derived exactly
as: cancelled if the job's cancel flag is set; else completed if every
file is completed or skipped; else completed if at least one file is
completed (partial success); else failed.  The spec's three-file
partial-success scenario (one failed, two completed) ends with job status
completed, `files_completed = 2` and `files_failed = 1`. -/
theorem final_job_status_derivation :
    (∀ (c : Bool) (files : List FileUploadState),
      (c = true → resolve_final_status c files = .cancelled) ∧
      (c = false →
        (∀ f ∈ files, f.status = .completed ∨ f.status = .skipped) →
        resolve_final_status c files = .completed) ∧
      (c = false → (∃ f ∈ files, f.status = .completed) →
        resolve_final_status c files = .completed) ∧
      (c = false → (∀ f ∈ files, f.status ≠ .completed) →
        (∃ f ∈ files, ¬(f.status = .completed ∨ f.status = .skipped)) →
        resolve_final_status c files = .failed)) ∧
    (resolve_final_status false c3files = .completed ∧
      files_completed c3files = 2 ∧ files_failed c3files = 1) := by
  constructor
  · intro c files
    refine ⟨fun hc => by simp [resolve_final_status, hc], ?_, ?_, ?_⟩
    · intro hc hall
      have h1 : files.all (fun f =>
          f.status == UploadStatus.completed ||
          f.status == UploadStatus.skipped) = true := by
        rw [List.all_eq_true]
        intro f hf
        rcases hall f hf with h | h <;> simp [h]
      simp [resolve_final_status, hc, h1]
    · intro hc hany
      have h2 : files.any (fun f => f.status == UploadStatus.completed) = true := by
        rw [List.any_eq_true]
        obtain ⟨f, hf, h⟩ := hany
        exact ⟨f, hf, by simp [h]⟩
      by_cases h1 : files.all (fun f =>
          f.status == UploadStatus.completed ||
          f.status == UploadStatus.skipped) = true
      · simp [resolve_final_status, hc, h1]
      · simp [resolve_final_status, hc, h1, h2]
    · intro hc hnone hnotall
      have h2 : files.any (fun f => f.status == UploadStatus.completed) = false := by
        rw [Bool.eq_false_iff]
        intro hcontra
        rw [List.any_eq_true] at hcontra
        obtain ⟨f, hf, h⟩ := hcontra
        exact hnone f hf (by simpa using h)
      have h1 : files.all (fun f =>
          f.status == UploadStatus.completed ||
          f.status == UploadStatus.skipped) = false := by
        rw [Bool.eq_false_iff]
        intro hcontra
        rw [List.all_eq_true] at hcontra
        obtain ⟨f, hf, hne⟩ := hnotall
        exact hne (by simpa using hcontra f hf)
      simp [resolve_final_status, hc, h1, h2]
  · exact ⟨rfl, rfl, rfl⟩

/-- Witness for C3: the first conjunct applied at the concrete scenario
(cancel flag set forces cancelled). -/
theorem final_job_status_derivation_witness :
    resolve_final_status true c3files = .cancelled :=
  (final_job_status_derivation.1 true c3files).1 rfl

/-- C9 counterexample.  A job whose single file is in the non-terminal
status ANALYZING: `cancel_job` returns ok and sets the cancel flag, but
the file is NOT marked cancelled — only PENDING and READY files are.  This
refutes the claim that every file in a non-terminal status (including
analyzing) is marked cancelled. -/
theorem cancel_job_counterexample :
    (cancel_job c9jobs "job-1").1 = true ∧
    (∃ job, get_job (cancel_job c9jobs "job-1").2 "job-1" = some job ∧
      job.cancelled = true ∧
      ∃ f ∈ job.files, f.status = .analyzing ∧ f.status ≠ .cancelled) := by
  refine ⟨rfl, ⟨_, rfl, rfl, ⟨_, List.mem_singleton_self _, rfl, by decide⟩⟩⟩

/-- C9 (amended).  `cancel_job` returns not-found (false) exactly when the
id is unknown, and otherwise returns ok after setting the job's cancel
flag and mapping `cancel_file` over its files; `cancel_file` marks exactly
the PENDING and READY files cancelled and leaves every other status
(analyzing, uploading-in-flight, and terminal) unchanged — in-flight
uploads run to completion. -/
theorem cancel_job_amended (jobs : List (String × UploadJob)) (job_id : String) :
    (get_job jobs job_id = none → cancel_job jobs job_id = (false, jobs)) ∧
    (∀ job, get_job jobs job_id = some job →
      cancel_job jobs job_id =
        (true, jobs.map fun p =>
          if p.1 == job_id then
            (p.1, { p.2 with cancelled := true,
                             files := p.2.files.map cancel_file })
          else p)) ∧
    (∀ f : FileUploadState,
      (f.status = .pending ∨ f.status = .ready →
        cancel_file f = { f with status := .cancelled }) ∧
      (f.status ≠ .pending → f.status ≠ .ready → cancel_file f = f)) := by
  refine ⟨?_, ?_, ?_⟩
  · intro h
    simp [cancel_job, h]
  · intro job h
    simp [cancel_job, h]
  · intro f
    constructor
    · intro h
      simp [cancel_file, h]
    · intro h1 h2
      simp [cancel_file, h1, h2]

/-- Witness for C9's amended theorem: not-found on an empty job map, and a
READY file is cancelled by `cancel_file`. -/
theorem cancel_job_amended_witness :
    cancel_job [] "missing" = (false, []) ∧
    cancel_file { filename := "w.mcap", local_path := "/w.mcap",
                  file_size := 1, status := .ready } =
      { filename := "w.mcap", local_path := "/w.mcap",
        file_size := 1, status := .cancelled } :=
  ⟨(cancel_job_amended [] "missing").1 rfl,
   ((cancel_job_amended [] "missing").2.2
      { filename := "w.mcap", local_path := "/w.mcap",
        file_size := 1, status := .ready }).1 (Or.inr rfl)⟩

/-- C4 counterexample.  Under the claim's own assumption on the gateway
(non-decreasing byte reports bounded by the size), the final progress
callback may report `uploaded = total` while the file is still UPLOADING:
a reachable observable state has `bytes_uploaded = file_size` with status
uploading, refuting `bytes_uploaded = file_size` *exactly when* the file
reaches COMPLETED. -/
theorem upload_bytes_exactness_counterexample :
    Relation.ReflTransGen (UploadStep true) c4init c4full ∧
    c4full.status = .uploading ∧
    c4full.status ≠ .completed ∧
    c4full.bytes_uploaded = c4full.file_size := by
  refine ⟨?_, rfl, by decide, rfl⟩
  have h1 : UploadStep true c4init c4uploading :=
    UploadStep.start_uploading c4init 1 rfl
  have h2 : UploadStep true c4uploading c4full :=
    UploadStep.progress c4uploading 4 rfl (by decide) (by decide)
  exact Relation.ReflTransGen.head h1 (Relation.ReflTransGen.single h2)

/-- C4 (amended).  For a READY file entering the upload phase with a zero
byte counter, at every observable state: the size is unchanged,
`bytes_uploaded ≤ file_size`; status COMPLETED implies
`bytes_uploaded = file_size`; and a file skipped as a duplicate (skipped
with an empty error message) also has `bytes_uploaded = file_size`.  The
converse — equality only at COMPLETED — is dropped, as refuted by the
counterexample. -/
theorem upload_bytes_invariant_amended (sd : Bool) (init s : FileUploadState)
    (hready : init.status = .ready) (hzero : init.bytes_uploaded = 0)
    (herr : init.error_message = "")
    (hreach : Relation.ReflTransGen (UploadStep sd) init s) :
    s.file_size = init.file_size ∧
    s.bytes_uploaded ≤ s.file_size ∧
    (s.status = .completed → s.bytes_uploaded = s.file_size) ∧
    (s.status = .skipped → s.error_message = "" →
      s.bytes_uploaded = s.file_size) := by
  induction hreach with
  | refl =>
    refine ⟨rfl, by omega, ?_, ?_⟩
    · intro h
      rw [hready] at h
      exact absurd h (by decide)
    · intro h _
      rw [hready] at h
      exact absurd h (by decide)
  | @tail b c hab hbc ih =>
    obtain ⟨ihsz, ihle, ihcomp, ihskip⟩ := ih
    cases hbc with
    | skip_duplicate hst hsd hdup =>
      exact ⟨ihsz, le_refl _, fun _ => rfl, fun _ _ => rfl⟩
    | skip_invalid hst hval =>
      refine ⟨ihsz, ihle, ?_, ?_⟩
      · intro h
        exact absurd (show UploadStatus.skipped = .completed from h) (by decide)
      · intro _ h
        exact absurd (show "Invalid timestamp (pre-1980)" = "" from h) (by decide)
    | start_uploading t hst =>
      refine ⟨ihsz, ihle, ?_, ?_⟩
      · intro h
        exact absurd (show UploadStatus.uploading = .completed from h) (by decide)
      · intro h
        exact absurd (show UploadStatus.uploading = .skipped from h) (by decide)
    | progress n hst hmono hbound =>
      refine ⟨ihsz, hbound, ?_, ?_⟩
      · intro h
        have h2 : b.status = .completed := h
        rw [hst] at h2
        exact absurd h2 (by decide)
      · intro h
        have h2 : b.status = .skipped := h
        rw [hst] at h2
        exact absurd h2 (by decide)
    | complete t hst =>
      exact ⟨ihsz, le_refl _, fun _ => rfl, fun _ _ => rfl⟩
    | fail e t hst =>
      refine ⟨ihsz, ihle, ?_, ?_⟩
      · intro h
        exact absurd (show UploadStatus.failed = .completed from h) (by decide)
      · intro h
        exact absurd (show UploadStatus.failed = .skipped from h) (by decide)
    | cancel hst =>
      refine ⟨ihsz, ihle, ?_, ?_⟩
      · intro h
        exact absurd (show UploadStatus.cancelled = .completed from h) (by decide)
      · intro h
        exact absurd (show UploadStatus.cancelled = .skipped from h) (by decide)

/-- C2.  For every job and every oracle outcome (with the S3 client
constructed): analysis processes every file — the result has one output
file per input file, and each equals the per-file analysis of its input
against some cache state (the one threaded through the duplicate checks);
a parse failure makes exactly that file FAILED with the parser's message
while the remaining files are analyzed independently; a parsed file
carries the extracted timestamp, the derived key and the validity flag,
and ends READY or FAILED (the latter when the duplicate check raises); and
the job resolves to READY if any file is READY, else FAILED. -/
theorem analyze_job_per_file (env : AnalyzeEnv) (job : UploadJob)
    (hclient : env.clientOk = true) :
    (analyze_job_async env job).1.files.length = job.files.length ∧
    (∃ caches : Nat → List cache_service.CacheRow, caches 0 = env.cache ∧
      ∀ j f, job.files.get? j = some f →
        (analyze_job_async env job).1.files.get? j =
          some (analyze_single_file_model env j (caches j) f)) ∧
    (∀ j f e, job.files.get? j = some f → env.parse j = .error e →
      ∃ f', (analyze_job_async env job).1.files.get? j = some f' ∧
        f'.status = .failed ∧ f'.error_message = e) ∧
    (∀ j f t, job.files.get? j = some f → env.parse j = .ok t →
      ∃ f', (analyze_job_async env job).1.files.get? j = some f' ∧
        f'.start_time = some t ∧
        f'.s3_path = mcap_service.generate_s3_path t f.filename ∧
        f'.is_valid = pyDatetimeGE (mcap_service.to_naive_utc t)
          EPOCH_CUTOFF ∧
        (f'.status = .ready ∨ f'.status = .failed)) ∧
    (analyze_job_async env job).1.status =
      resolve_analysis_status (analyze_job_async env job).1.files := by
  have hcond : (!env.clientOk) = false := by rw [hclient]; rfl
  have hred : analyze_job_async env job =
      ({ job with
          files := (analyze_phase2 env
            (job.files.enum.map (fun p =>
              analyze_phase1_file p.2 (env.parse p.1))) env.cache 0).1,
          status := resolve_analysis_status (analyze_phase2 env
            (job.files.enum.map (fun p =>
              analyze_phase1_file p.2 (env.parse p.1))) env.cache 0).1 },
       (analyze_phase2 env
         (job.files.enum.map (fun p =>
           analyze_phase1_file p.2 (env.parse p.1))) env.cache 0).2) := by
    simp [analyze_job_async, hcond]
  obtain ⟨hlen, caches, hc0, hget⟩ := analyze_phase2_get env
    (job.files.enum.map (fun p => analyze_phase1_file p.2 (env.parse p.1)))
    env.cache 0
  have hfiles1get : ∀ j f, job.files.get? j = some f →
      (job.files.enum.map (fun p =>
        analyze_phase1_file p.2 (env.parse p.1))).get? j =
        some (analyze_phase1_file f (env.parse j)) := by
    intro j f hf
    rw [List.get?_map, List.get?_enum, hf]
    rfl
  have hper : ∀ j f, job.files.get? j = some f →
      (analyze_job_async env job).1.files.get? j =
        some (analyze_single_file_model env j (caches j) f) := by
    intro j f hf
    have h := hget j _ (hfiles1get j f hf)
    rw [Nat.zero_add] at h
    rw [hred]
    exact h
  refine ⟨?_, ⟨caches, hc0, hper⟩, ?_, ?_, ?_⟩
  · rw [hred]
    simp only [hlen, List.length_map, List.enum_length]
  · intro j f e hf hparse
    exact ⟨analyze_single_file_model env j (caches j) f, hper j f hf,
      analyze_single_error env j (caches j) f e hparse⟩
  · intro j f t hf hparse
    obtain ⟨h1, h2, h3, h4⟩ := analyze_single_ok env j (caches j) f t hparse
    exact ⟨analyze_single_file_model env j (caches j) f, hper j f hf,
      h1, h2, h3, h4⟩
  · rw [hred]

/-- Witness for C2 on a concrete one-file job whose parse succeeds with
the scenario-1 timestamp and whose HEAD reports not-present. -/
theorem analyze_job_per_file_witness :
    ∃ f', (analyze_job_async c2env c2job).1.files.get? 0 = some f' ∧
      f'.start_time = some ⟨2024, 6, 15, 14, 35, 0⟩ ∧
      f'.s3_path = mcap_service.generate_s3_path ⟨2024, 6, 15, 14, 35, 0⟩
        "Bag_2024_06_15_14_35_00.mcap" ∧
      f'.is_valid = pyDatetimeGE
        (mcap_service.to_naive_utc ⟨2024, 6, 15, 14, 35, 0⟩) EPOCH_CUTOFF ∧
      (f'.status = .ready ∨ f'.status = .failed) :=
  (analyze_job_per_file c2env c2job rfl).2.2.2.1 0
    { filename := "Bag_2024_06_15_14_35_00.mcap",
      local_path := "/data/Bag_2024_06_15_14_35_00.mcap", file_size := 5 }
    ⟨2024, 6, 15, 14, 35, 0⟩ rfl rfl

/-- Witness for C4's amended theorem, applied at the concrete READY file
with the empty (reflexive) run. -/
theorem upload_bytes_invariant_amended_witness :
    c4init.file_size = c4init.file_size ∧
    c4init.bytes_uploaded ≤ c4init.file_size ∧
    (c4init.status = .completed → c4init.bytes_uploaded = c4init.file_size) ∧
    (c4init.status = .skipped → c4init.error_message = "" →
      c4init.bytes_uploaded = c4init.file_size) :=
  upload_bytes_invariant_amended true c4init c4init rfl rfl rfl
    Relation.ReflTransGen.refl

end upload_manager

namespace delete_manager

/-- C5 counterexample.  A HEAD returning an uppercase single-part ETag
whose lowercase form equals the local MD5, with matching sizes: the claim
("the lowercase ETag is compared to the local MD5 — equal gives
verified") prescribes VERIFIED at level `md5+size`, but the code compares
the ETag verbatim (`etag == file_state.local_md5`, delete_manager.py line
364) and yields MISMATCH. -/
theorem delete_verify_lowercase_counterexample :
    (verify_against_s3 c5file (.ok 1 "ABC")).status = .mismatch ∧
    (verify_against_s3 c5file (.ok 1 "ABC")).status ≠ .verified ∧
    lowerString "ABC" = c5file.local_md5 ∧
    is_multipart_etag "ABC" = false ∧
    c5file.file_size = 1 ∧ c5file.status ≠ .failed := by
  exact ⟨rfl, by decide, rfl, rfl, rfl, by decide⟩

/-- C5 (amended).  Phase-2 verification for a file not already FAILED:
HEAD not-found gives FAILED carrying the gateway message, a HEAD
exception gives FAILED carrying the exception message, a size mismatch
gives MISMATCH, matching sizes with a multipart ETag give VERIFIED at
level "size" without consulting the local MD5, and matching sizes with a
single-part ETag compare the ETag *verbatim* (not lowercased) to the
local MD5 — equal gives VERIFIED at level "md5+size", unequal gives
MISMATCH. -/
theorem delete_verify_phase2_amended (fs : FileDeleteState) (sz : Nat)
    (etag e : String) (hnf : fs.status ≠ .failed) :
    ((verify_against_s3 fs (.notFound e)).status = .failed ∧
      (verify_against_s3 fs (.notFound e)).error_message =
        "S3 object not found: " ++ e) ∧
    ((verify_against_s3 fs (.raised e)).status = .failed ∧
      (verify_against_s3 fs (.raised e)).error_message =
        "S3 verification failed: " ++ e) ∧
    (sz ≠ fs.file_size →
      (verify_against_s3 fs (.ok sz etag)).status = .mismatch) ∧
    (sz = fs.file_size → is_multipart_etag etag = true →
      (verify_against_s3 fs (.ok sz etag)).status = .verified ∧
      (verify_against_s3 fs (.ok sz etag)).verification = "size" ∧
      (verify_against_s3 fs (.ok sz etag)).local_md5 = fs.local_md5) ∧
    (sz = fs.file_size → is_multipart_etag etag = false →
      etag = fs.local_md5 →
      (verify_against_s3 fs (.ok sz etag)).status = .verified ∧
      (verify_against_s3 fs (.ok sz etag)).verification = "md5+size") ∧
    (sz = fs.file_size → is_multipart_etag etag = false →
      etag ≠ fs.local_md5 →
      (verify_against_s3 fs (.ok sz etag)).status = .mismatch) := by
  refine ⟨?_, ?_, ?_, ?_, ?_, ?_⟩
  · constructor <;> simp [verify_against_s3, hnf]
  · constructor <;> simp [verify_against_s3, hnf]
  · intro hsz
    simp [verify_against_s3, hnf, hsz]
  · intro hsz hmp
    refine ⟨?_, ?_, ?_⟩ <;> simp [verify_against_s3, hnf, hsz, hmp]
  · intro hsz hmp heq
    rw [heq] at hmp
    constructor <;> simp [verify_against_s3, hnf, hsz, hmp, heq]
  · intro hsz hmp hne
    simp [verify_against_s3, hnf, hsz, hmp, hne]

/-- Witness for C5's amended theorem at the spec's concrete
multipart-verification scenario: ETag "abcd-3", sizes equal → VERIFIED at
level "size", with the local MD5 untouched and not compared. -/
theorem delete_verify_phase2_amended_witness :
    (verify_against_s3 c5multifile (.ok 2 "abcd-3")).status = .verified ∧
    (verify_against_s3 c5multifile (.ok 2 "abcd-3")).verification = "size" ∧
    (verify_against_s3 c5multifile (.ok 2 "abcd-3")).local_md5 =
      c5multifile.local_md5 :=
  (delete_verify_phase2_amended c5multifile 2 "abcd-3" "" (by decide)).2.2.2.1
    rfl rfl

/-- C6.  In every delete job (all files initially PENDING, as produced by
the scan), for any oracle outcomes and any cancel-flag schedule: an unlink
is attempted only in the DELETING state, which is entered only from a
prior VERIFIED state — so the unlink step never runs for a file whose
status is cancelled, mismatch, or failed — and every file that ever
reaches DELETED held VERIFIED at some prior moment of the run. -/
theorem delete_unlink_only_after_verified (env : DeleteEnv)
    (files : List FileDeleteState)
    (hpend : ∀ f ∈ files, f.status = .pending) :
    (∀ k i, (start_delete_job env files).2.1.get? k =
        some (.unlinkAttempt i) →
      statusAt files ((start_delete_job env files).2.1.take k) i =
        .deleting ∧
      ∃ j, j < k ∧
        statusAt files ((start_delete_job env files).2.1.take j) i =
          .verified) ∧
    (∀ k i, statusAt files ((start_delete_job env files).2.1.take k) i =
        .deleted →
      ∃ j, j < k ∧
        statusAt files ((start_delete_job env files).2.1.take j) i =
          .verified) := by
  have hlog := start_delete_job_logok env files
  have hσ : ∀ i, statusOf files i ≠ .deleting ∧ statusOf files i ≠ .deleted := by
    intro i
    unfold statusOf
    cases hg : files.get? i with
    | none => exact ⟨by simp, by simp⟩
    | some f =>
      have hp := hpend f (List.get?_mem hg)
      simp [hp]
  constructor
  · intro k i hk
    have hdel := logOk_take_unlink _ _ k i hlog hk
    exact ⟨hdel,
      logOk_deleting_prior_verified _ _ k i hlog hdel (hσ i).1⟩
  · intro k i hd
    exact logOk_deleted_prior_verified _ _ k i hlog hd (hσ i).2 (hσ i).1

/-- Witness for C6 on a concrete one-file run that verifies and deletes
the file: the unlink attempt is the fourth event, the status just before
it is DELETING, and the file was VERIFIED earlier in the run. -/
theorem delete_unlink_only_after_verified_witness :
    statusAt c6files ((start_delete_job c6env c6files).2.1.take 3) 0 =
      .deleting ∧
    ∃ j, j < 3 ∧
      statusAt c6files ((start_delete_job c6env c6files).2.1.take j) 0 =
        .verified :=
  (delete_unlink_only_after_verified c6env c6files (by decide)).1 3 0 rfl

end delete_manager

end Modaq
